import Mathlib

/-! proxypool: a shallow embedding of the validation pipeline.

Go strings are modelled as `List Char` (the payload is taken to be valid
UTF-8, so that a string is its sequence of Unicode scalar values; byte lengths
are recovered with `Char.utf8Size`).  Go `int` is 64 bits wide and is modelled
by `Int` with the range checks of `strconv` made explicit.  Wall-clock
instants are natural numbers.
-/

namespace ProxyPool

/-! ## internal/model/proxy.go -/

/-- Go `string`, as the sequence of its Unicode scalar values. -/
abbrev GoString := List Char

/-- Go `time.Time`, as an abstract instant. -/
abbrev Time := Nat

/-- The struct `model.Proxy`. `LastCheckedAt` is a nullable pointer in the source. -/
structure Proxy where
  ID : Int := 0
  IP : GoString := []
  Port : Int := 0
  Protocol : GoString := []
  Country : GoString := []
  Anonymity : GoString := []
  LatencyMS : Int := 0
  LastCheckedAt : Option Time := none
  CreatedAt : Time := 0
deriving DecidableEq, Repr

/-! ## Go standard library pieces used by `GithubRawSource.Fetch` -/

/-- Go `unicode.IsSpace`: the Latin-1 spaces and the code points with the
White_Space property. -/
def isSpace (c : Char) : Bool :=
  let n := c.toNat
  n == 0x09 || n == 0x0A || n == 0x0B || n == 0x0C || n == 0x0D || n == 0x20 ||
  n == 0x85 || n == 0xA0 || n == 0x1680 || (0x2000 ≤ n && n ≤ 0x200A) ||
  n == 0x2028 || n == 0x2029 || n == 0x202F || n == 0x205F || n == 0x3000

/-- Go `strings.TrimSpace`: drop leading and trailing white space. -/
def TrimSpace (s : GoString) : GoString :=
  ((s.dropWhile isSpace).reverse.dropWhile isSpace).reverse

/-- Go `strings.HasPrefix(s, "#")`. -/
def HasPrefixHash : GoString → Bool
  | c :: _ => c == '#'
  | [] => false

/-- Go `strings.Cut(s, ":")`: the text before and after the first `:`,
or `none` when `found` is false. -/
def Cut : GoString → Option (GoString × GoString)
  | [] => none
  | c :: cs =>
    if c = ':' then some ([], cs)
    else match Cut cs with
      | none => none
      | some (before, after) => some (c :: before, after)

/-- The loop of `strconv.ParseUint` in base 10: `none` on the first byte that
is not an ASCII digit, otherwise the accumulated value. -/
def parseDigits : Nat → GoString → Option Nat
  | n, [] => some n
  | n, c :: cs =>
    if '0' ≤ c ∧ c ≤ '9' then parseDigits (n * 10 + (c.toNat - '0'.toNat)) cs
    else none

/-- Go `strconv.Atoi` on a 64-bit platform: an optional sign, at least one
ASCII digit, and a value that fits `int`; `none` stands for a non-nil error
(syntax or range). -/
def Atoi (s : GoString) : Option Int :=
  match s with
  | [] => none
  | c :: rest =>
    let body := if c = '-' ∨ c = '+' then rest else s
    if body = [] then none
    else match parseDigits 0 body with
      | none => none
      | some un =>
        if c = '-' then (if un > 2 ^ 63 then none else some (-(un : Int)))
        else (if un ≥ 2 ^ 63 then none else some (un : Int))

/-- Go `bufio.MaxScanTokenSize`. -/
def MaxScanTokenSize : Nat := 64 * 1024

/-- The number of bytes of the UTF-8 encoding of a string. -/
def byteLen (s : GoString) : Nat := (s.map Char.utf8Size).sum

/-- The raw lines `bufio.ScanLines` cuts a body into, before the trailing
carriage return is dropped: the text between line feeds, and a last
unterminated line when it is not empty. `acc` is the current line, reversed. -/
def rawLinesAux : GoString → GoString → List GoString
  | acc, [] => if acc = [] then [] else [acc.reverse]
  | acc, c :: cs =>
    if c = '\n' then acc.reverse :: rawLinesAux [] cs
    else rawLinesAux (c :: acc) cs

/-- The raw lines of a body. -/
def rawLines (body : GoString) : List GoString := rawLinesAux [] body

/-- The helper `dropCR` of `bufio.ScanLines`. -/
def dropCR (s : GoString) : GoString :=
  match s.reverse with
  | '\r' :: r => r.reverse
  | _ => s

/-! ## internal/scraper/sources/github_raw.go -/

/-- The ways `GithubRawSource.Fetch` returns a non-nil error. -/
inductive FetchError where
  | createRequest
  | fetchFailed
  | unexpectedStatus (code : Int)
  | scanError
deriving DecidableEq, Repr

/-- One iteration of the scan loop of `Fetch` on the token `text`
(`scanner.Text()`): the proxy appended, or `none` for `continue`. -/
def parseLine (protocolOverride : GoString) (text : GoString) : Option Proxy :=
  let line := TrimSpace text
  if line = [] ∨ HasPrefixHash line = true then none
  else match Cut line with
    | none => none
    | some (host, portStr) =>
      match Atoi portStr with
      | none => none
      | some port => some { IP := host, Port := port, Protocol := protocolOverride }

/-- The scan loop of `Fetch` over the raw lines still to be read, `proxies`
being the slice built so far. A line that does not fit the scanner's buffer
ends the scan with `bufio.ErrTooLong`, which `Fetch` returns as a scan error. -/
def scanLoop (protocolOverride : GoString) : List GoString → List Proxy → Except FetchError (List Proxy)
  | [], proxies => .ok proxies
  | raw :: rest, proxies =>
    if MaxScanTokenSize ≤ byteLen raw then .error FetchError.scanError
    else match parseLine protocolOverride (dropCR raw) with
      | none => scanLoop protocolOverride rest proxies
      | some p => scanLoop protocolOverride rest (proxies ++ [p])

/-- What the HTTP round trip of `Fetch` came to. -/
inductive HttpOutcome where
  | requestError
  | doError
  | response (statusCode : Int) (body : GoString)
deriving DecidableEq, Repr

/-- The method `GithubRawSource.Fetch`, given the outcome of its HTTP round trip. -/
def Fetch (protocolOverride : GoString) : HttpOutcome → Except FetchError (List Proxy)
  | .requestError => .error FetchError.createRequest
  | .doError => .error FetchError.fetchFailed
  | .response statusCode body =>
    if statusCode ≠ 200 then .error (FetchError.unexpectedStatus statusCode)
    else scanLoop protocolOverride (rawLines body) []

/-! ## internal/model/proxy.go, methods -/

/-- The verb `%d` of `fmt.Sprintf` on an `int`. -/
def Sprintd : Int → GoString
  | Int.ofNat m => Nat.toDigits 10 m
  | Int.negSucc m => '-' :: Nat.toDigits 10 (m + 1)

/-- The method `Proxy.Address`: the text `ip:port`. -/
def Proxy.Address (p : Proxy) : GoString := p.IP ++ ':' :: Sprintd p.Port

/-! ## internal/checker/checker.go -/

/-- The struct `checker.CheckResult`. -/
structure CheckResult where
  Alive : Bool := false
  LatencyMS : Int := 0
  Country : GoString := []
  Anonymity : GoString := []
deriving DecidableEq, Repr

/-- The struct `checker.Checker`; the timeout is in milliseconds. -/
structure Checker where
  TargetURL : GoString
  Timeout : Nat
deriving DecidableEq, Repr

/-- The ways `Checker.Check` returns a non-nil error. -/
inductive CheckError where
  | invalidProxyURL
  | badRequest
deriving DecidableEq, Repr

/-- Why `client.Do` returned a non-nil error. -/
inductive TransportError where
  | connectionRefused
  | timeout
  | contextCanceled
  | other
deriving DecidableEq, Repr

/-- What `client.Do(req)` returned: an error, or a response with its status code. -/
inductive DoOutcome where
  | failed (err : TransportError)
  | response (statusCode : Int)
deriving DecidableEq, Repr

/-- The world around one call of `Checker.Check`: which texts `url.Parse` and
`http.NewRequestWithContext` accept, what `client.Do` returns, and the value of
`time.Since(start).Milliseconds()` read after it. -/
structure ProbeEnv where
  urlParse : GoString → Bool
  newRequest : GoString → Bool
  doOutcome : DoOutcome
  elapsedMs : Nat

/-- The text `proxyStr` that `Check` builds for the proxy. -/
def proxyStr (p : Proxy) : GoString :=
  if p.Protocol ≠ [] then p.Protocol ++ "://".toList ++ p.IP ++ ':' :: Sprintd p.Port
  else "http://".toList ++ p.IP ++ ':' :: Sprintd p.Port

/-- The method `Checker.Check`. -/
def Check (c : Checker) (env : ProbeEnv) (p : Proxy) : Except CheckError CheckResult :=
  if env.urlParse (proxyStr p) = false then .error CheckError.invalidProxyURL
  else if env.newRequest c.TargetURL = false then .error CheckError.badRequest
  else match env.doOutcome with
    | .failed _ => .ok { Alive := false }
    | .response statusCode =>
      let Latency : Int := env.elapsedMs
      if statusCode ≥ 200 ∧ statusCode < 400 then .ok { Alive := true, LatencyMS := Latency }
      else .ok { Alive := false }

/-! ## internal/geoip/geoip.go -/

/-- The struct `geoip.Service`, as the two calls `Lookup` makes on its way:
whether `net.ParseIP` accepts the text, and what `db.City` returns for it
(`none` for an error, else the ISO code and the English name). -/
structure GeoService where
  parseIP : GoString → Bool
  city : GoString → Option (GoString × GoString)

/-- The ways `Service.Lookup` returns a non-nil error. -/
inductive GeoError where
  | invalidIP
  | lookupFailed
deriving DecidableEq, Repr

/-- The method `Service.Lookup`: ISO code, display name, error. -/
def GeoService.Lookup (s : GeoService) (ipStr : GoString) :
    GoString × GoString × Option GeoError :=
  if s.parseIP ipStr = false then ([], [], some GeoError.invalidIP)
  else match s.city ipStr with
    | none => ([], [], some GeoError.lookupFailed)
    | some (iso, name) => (iso, name, none)

/-! ## internal/engine/engine.go -/

/-- The struct `engine.Config`. -/
structure Config where
  NumWorkers : Int
  BatchSize : Int
deriving DecidableEq, Repr

/-- The struct `engine.Engine`, without its repository and its sources, which
are interfaces to the outside. `geo` is a nullable pointer in the source. -/
structure Engine where
  chk : Checker
  geo : Option GeoService
  cfg : Config

/-- The constructor `engine.New`. -/
def New (chk : Checker) (geo : Option GeoService) (cfg : Config) : Engine :=
  let cfg := if cfg.NumWorkers ≤ 0 then { cfg with NumWorkers := 50 } else cfg
  let cfg := if cfg.BatchSize ≤ 0 then { cfg with BatchSize := 100 } else cfg
  { chk := chk, geo := geo, cfg := cfg }

/-- The body of the loop of `Engine.runWorker` between the check and the send:
`check` is what `e.chk.Check(ctx, p)` returned and `now` what `time.Now()` read. -/
def workerStep (geo : Option GeoService) (check : Except CheckError CheckResult)
    (now : Time) (p : Proxy) : Proxy :=
  let p := { p with LastCheckedAt := some now }
  match check with
  | .error _ => { p with LatencyMS := 0 }
  | .ok res =>
    if res.Alive = false then { p with LatencyMS := 0 }
    else
      let p := { p with LatencyMS := res.LatencyMS }
      match geo with
      | none => p
      | some svc =>
        let r := svc.Lookup p.IP
        if r.2.2 = none ∧ r.1 ≠ [] then { p with Country := r.1 } else p

/-- What the `select` of `Engine.runWriter` received. -/
inductive WriterEvent where
  | cancel
  | tick
  | result (p : Proxy)
  | closed
deriving DecidableEq, Repr

/-- The two lines the closure `flush` logs. -/
inductive LogEntry where
  | updateFailed (count : Nat)
  | updatedBatch (count : Nat)
deriving DecidableEq, Repr

/-- The state of `Engine.runWriter`: its buffer `batch`, the arguments of the
calls of `UpdateBatch` made so far (in call order), the log, and whether it has
returned. -/
structure WriterState where
  batch : List Proxy := []
  calls : List (List Proxy) := []
  log : List LogEntry := []
  returned : Bool := false
deriving DecidableEq, Repr

/-- The closure `flush` of `runWriter`; `updateFails k` tells whether the call
of `UpdateBatch` that follows `k` earlier calls returns an error. -/
def flush (updateFails : Nat → Bool) (s : WriterState) : WriterState :=
  if s.batch.length > 0 then
    { s with
      calls := s.calls ++ [s.batch]
      log := s.log ++ [if updateFails s.calls.length then LogEntry.updateFailed s.batch.length
                       else LogEntry.updatedBatch s.batch.length]
      batch := [] }
  else s

/-- One turn of the `select` loop of `runWriter`. -/
def writerStep (e : Engine) (updateFails : Nat → Bool) (s : WriterState) :
    WriterEvent → WriterState
  | .cancel => { flush updateFails s with returned := true }
  | .tick => flush updateFails s
  | .closed => { flush updateFails s with returned := true }
  | .result p =>
    let s := { s with batch := s.batch ++ [p] }
    if (s.batch.length : Int) ≥ e.cfg.BatchSize then flush updateFails s else s

/-- The method `Engine.runWriter` over the events its `select` receives; events
after it has returned are not received. -/
def runWriter (e : Engine) (updateFails : Nat → Bool) (events : List WriterEvent) :
    WriterState :=
  events.foldl (fun s ev => if s.returned then s else writerStep e updateFails s ev) {}

/-! ## internal/storage/postgres.go -/

/-- An error of the database driver, told apart by a code. -/
structure DbError where
  code : Nat
deriving DecidableEq, Repr

/-- The errors `SaveBatch` and `UpdateBatch` build with `fmt.Errorf`: the index
of the batch item and the driver's error wrapped with `%w`. -/
inductive RepoError where
  | insertItem (i : Nat) (err : DbError)
  | updateItem (i : Nat) (err : DbError)
deriving DecidableEq, Repr

/-- The loop `for i := 0; i < len(proxies); i++ { _, err := br.Exec(); ... }`
with `n` results still to read, `i` the index reached; `exec i` is what the
call of `br.Exec` for item `i` returns (`none` for a nil error). -/
def execLoop (wrap : Nat → DbError → RepoError) (exec : Nat → Option DbError) :
    Nat → Nat → Option RepoError
  | 0, _ => none
  | n + 1, i =>
    match exec i with
    | some err => some (wrap i err)
    | none => execLoop wrap exec n (i + 1)

/-- The arguments of one queued `INSERT ... ON CONFLICT (ip, port) DO NOTHING`. -/
structure InsertStmt where
  ip : GoString
  port : Int
  protocol : GoString
deriving DecidableEq, Repr

/-- What one call of `SaveBatch` did: the statements it sent and the error it
returned. -/
structure SaveResult where
  sent : List InsertStmt
  err : Option RepoError
deriving DecidableEq, Repr

/-- The method `PostgresRepository.SaveBatch`. -/
def SaveBatch (proxies : List Proxy) (exec : Nat → Option DbError) : SaveResult :=
  if proxies.length = 0 then { sent := [], err := none }
  else
    { sent := proxies.map (fun p => { ip := p.IP, port := p.Port, protocol := p.Protocol })
      err := execLoop RepoError.insertItem exec proxies.length 0 }

/-- Modelled from the spec: the table `proxies`, whose declaration is not in the
sources, as the list of its rows, with the unique index on `(ip, port)` the
spec requires. -/
abbrev Store := List Proxy

/-- Whether a row of the table has the natural key `(ip, port)`. -/
def hasKey (store : Store) (ip : GoString) (port : Int) : Bool :=
  store.any (fun r => decide (r.IP = ip ∧ r.Port = port))

/-- Modelled from the spec: the identifier the store assigns to a fresh row, one
above the largest in use. -/
def nextID (store : Store) : Int := store.foldl (fun m r => max m r.ID) 0 + 1

/-- The statement `INSERT INTO proxies (ip, port, protocol, created_at)
VALUES ($1, $2, $3, NOW()) ON CONFLICT (ip, port) DO NOTHING` of `SaveBatch`:
nothing when the key is present, else a fresh row with the check-derived
columns empty. -/
def insertOnConflictDoNothing (now : Time) (store : Store) (st : InsertStmt) : Store :=
  if hasKey store st.ip st.port = true then store
  else store ++ [{ ID := nextID store, IP := st.ip, Port := st.port,
                   Protocol := st.protocol, CreatedAt := now }]

/-- The effect of a sent batch on the table: statement `i` takes effect when
`applied i` holds (the server may refuse or roll back a statement). -/
def applyInserts (now : Time) (applied : Nat → Bool) : Nat → Store → List InsertStmt → Store
  | _, store, [] => store
  | i, store, st :: rest =>
    applyInserts now applied (i + 1)
      (if applied i = true then insertOnConflictDoNothing now store st else store) rest

/-- One call of `SaveBatch` as the store sees it. -/
structure SaveCall where
  proxies : List Proxy
  exec : Nat → Option DbError
  applied : Nat → Bool
  now : Time

/-- The table after one call of `SaveBatch`. -/
def saveBatchStore (store : Store) (call : SaveCall) : Store :=
  applyInserts call.now call.applied 0 store (SaveBatch call.proxies call.exec).sent

/-- The table after a sequence of calls of `SaveBatch`. -/
def saveBatches (store : Store) (calls : List SaveCall) : Store :=
  calls.foldl saveBatchStore store

/-- The number of rows of the table with the natural key `(ip, port)`. -/
def rowCount (store : Store) (ip : GoString) (port : Int) : Nat :=
  store.countP (fun r => decide (r.IP = ip ∧ r.Port = port))

/-! ## internal/engine/engine.go, the loops -/

/-- Go `int` arithmetic on a 64-bit platform: the two's complement value an
exact result wraps to. -/
def wrapInt (x : Int) : Int := (x + 2 ^ 63) % 2 ^ 64 - 2 ^ 63

/-- The capacity `e.cfg.BatchSize*2` that `Engine.Run` passes to `make` for
`jobChan` and for `resultChan`. -/
def queueCapacity (e : Engine) : Int := wrapInt (e.cfg.BatchSize * 2)

/-- One turn of the loop of `Engine.scrapeAll`: the source's name, whether
`ctx.Err()` is non-nil at the top of the turn, what `src.Fetch` returns, and
what the calls of `br.Exec` inside `SaveBatch` return. -/
structure ScrapeTurn where
  name : GoString
  ctxErr : Bool
  fetched : Except FetchError (List Proxy)
  saveExec : Nat → Option DbError

/-- What `scrapeAll` does to the outside, in order: calls of `Fetch` and of
`SaveBatch`, and log lines. -/
inductive ScrapeEvent where
  | fetch (source : GoString)
  | saveBatch (proxies : List Proxy)
  | logScraping (source : GoString)
  | logScrapeFailed (source : GoString)
  | logSaveFailed
  | logSaved (count : Nat) (source : GoString)
deriving DecidableEq, Repr

/-- The method `Engine.scrapeAll` over the configured sources. -/
def scrapeAll : List ScrapeTurn → List ScrapeEvent
  | [] => []
  | t :: rest =>
    if t.ctxErr = true then []
    else
      match t.fetched with
      | .error _ =>
        .logScraping t.name :: .fetch t.name :: .logScrapeFailed t.name :: scrapeAll rest
      | .ok proxies =>
        if proxies.length > 0 then
          match (SaveBatch proxies t.saveExec).err with
          | some _ =>
            .logScraping t.name :: .fetch t.name :: .saveBatch proxies :: .logSaveFailed ::
              scrapeAll rest
          | none =>
            .logScraping t.name :: .fetch t.name :: .saveBatch proxies ::
              .logSaved proxies.length t.name :: scrapeAll rest
        else .logScraping t.name :: .fetch t.name :: scrapeAll rest

/-- The sources `Fetch` was called on, in call order. -/
def fetchCalls : List ScrapeEvent → List GoString
  | [] => []
  | .fetch source :: rest => source :: fetchCalls rest
  | _ :: rest => fetchCalls rest

/-- The arguments `SaveBatch` was called with, in call order. -/
def saveCalls : List ScrapeEvent → List (List Proxy)
  | [] => []
  | .saveBatch proxies :: rest => proxies :: saveCalls rest
  | _ :: rest => saveCalls rest

/-- The candidate list a turn hands to `SaveBatch`, if any: the fetch
succeeded and the list is not empty. -/
def savedList (t : ScrapeTurn) : Option (List Proxy) :=
  match t.fetched with
  | .error _ => none
  | .ok proxies => if proxies.length > 0 then some proxies else none

/-- One turn of the loop of `Engine.runWorker` on a dequeued job: whether
`ctx.Err()` is non-nil at the top of the body, the world of the check, what
`time.Now()` reads, and whether the final `select` takes `<-ctx.Done()`
instead of the send. -/
structure WorkerTurn where
  job : Proxy
  ctxErr : Bool
  env : ProbeEnv
  now : Time
  ctxDoneAtSend : Bool

/-- What a run of `runWorker` did: the jobs it dequeued, the jobs it checked,
the records it sent on the result queue, and whether it left its loop because
the job queue was closed and empty. -/
structure WorkerRun where
  dequeued : List Proxy
  checked : List Proxy
  delivered : List Proxy
  drained : Bool
deriving DecidableEq, Repr

/-- The record a turn of `runWorker` builds, once past the test of `ctx.Err()`. -/
def workerRecord (e : Engine) (t : WorkerTurn) : Proxy :=
  workerStep e.geo (Check e.chk t.env t.job) t.now t.job

/-- The method `Engine.runWorker` over the jobs the queue hands to this worker
until it is closed. -/
def runWorker (e : Engine) : List WorkerTurn → WorkerRun
  | [] => { dequeued := [], checked := [], delivered := [], drained := true }
  | t :: rest =>
    if t.ctxErr = true then
      { dequeued := [t.job], checked := [], delivered := [], drained := false }
    else if t.ctxDoneAtSend = true then
      { dequeued := [t.job], checked := [t.job], delivered := [], drained := false }
    else
      let r := runWorker e rest
      { dequeued := t.job :: r.dequeued, checked := t.job :: r.checked,
        delivered := workerRecord e t :: r.delivered, drained := r.drained }

/-- The results among the events a writer receives, in arrival order. -/
def receivedResults : List WriterEvent → List Proxy
  | [] => []
  | .result p :: rest => p :: receivedResults rest
  | _ :: rest => receivedResults rest

/-! ## Specification-side vocabulary for the text-list contract -/

/-- A non-empty run of ASCII decimal digits. -/
def IsDigits (ds : GoString) : Prop := ds ≠ [] ∧ ∀ c ∈ ds, '0' ≤ c ∧ c ≤ '9'

/-- The number a run of decimal digits denotes, most significant digit first. -/
def decimalValue (ds : GoString) : Nat :=
  ds.foldl (fun n c => n * 10 + (c.toNat - '0'.toNat)) 0

/-- The string `s` is a decimal numeral for the integer `v`: a run of digits,
optionally preceded by one sign. -/
def IsDecimal (s : GoString) (v : Int) : Prop :=
  ∃ ds, IsDigits ds ∧
    (((s = ds ∨ s = '+' :: ds) ∧ v = (decimalValue ds : Int)) ∨
      (s = '-' :: ds ∧ v = -(decimalValue ds : Int)))

/-- Natural-key uniqueness: no `(ip, port)` has more than one row. -/
def KeyUnique (store : Store) : Prop := ∀ ip port, rowCount store ip port ≤ 1

/-! # Theorems -/

/-! ## Text-list parser -/

theorem digit_ne_sign {c : Char} (h : '0' ≤ c ∧ c ≤ '9') : c ≠ '-' ∧ c ≠ '+' := by
  constructor <;> (rintro rfl; revert h; decide)

theorem parseDigits_eq_some (ds : GoString) (n m : Nat) :
    parseDigits n ds = some m ↔
      (∀ c ∈ ds, '0' ≤ c ∧ c ≤ '9') ∧
        m = ds.foldl (fun n c => n * 10 + (c.toNat - '0'.toNat)) n := by
  induction ds generalizing n with
  | nil => simp [parseDigits, eq_comm]
  | cons c cs ih =>
    by_cases hc : '0' ≤ c ∧ c ≤ '9'
    · simp [parseDigits, hc, ih]
    · simp only [parseDigits, hc, if_false, List.mem_cons, forall_eq_or_imp, false_and]
      simp

theorem Cut_append (host rest : GoString) (h : ':' ∉ host) :
    Cut (host ++ ':' :: rest) = some (host, rest) := by
  induction host with
  | nil => simp [Cut]
  | cons c cs ih =>
    have hc : c ≠ ':' := fun e => h (by simp [e])
    have hcs : ':' ∉ cs := fun e => h (by simp [e])
    simp [Cut, hc, ih hcs]

theorem Cut_eq_none (s : GoString) : Cut s = none ↔ ':' ∉ s := by
  induction s with
  | nil => simp [Cut]
  | cons c cs ih =>
    by_cases hc : c = ':'
    · simp [Cut, hc]
    · have hc2 : ¬ ':' = c := fun e => hc e.symm
      cases hcut : Cut cs with
      | none => simp [Cut, hc, hc2, hcut, ih.mp hcut]
      | some pr =>
        have : ¬ ':' ∉ cs := fun e => by rw [ih.mpr e] at hcut; cases hcut
        simp only [not_not] at this
        simp [Cut, hc, hcut, this]

theorem Cut_eq_some (s host rest : GoString) :
    Cut s = some (host, rest) ↔ s = host ++ ':' :: rest ∧ ':' ∉ host := by
  constructor
  · intro h
    induction s generalizing host with
    | nil => simp [Cut] at h
    | cons c cs ih =>
      by_cases hc : c = ':'
      · simp only [Cut, hc, if_true, Option.some.injEq, Prod.mk.injEq] at h
        obtain ⟨rfl, rfl⟩ := h
        simp [hc]
      · have hc2 : ¬ ':' = c := fun e => hc e.symm
        cases hcut : Cut cs with
        | none => simp [Cut, hc, hcut] at h
        | some pr =>
          obtain ⟨b, a⟩ := pr
          simp only [Cut, hc, if_false, hcut, Option.some.injEq, Prod.mk.injEq] at h
          obtain ⟨rfl, rfl⟩ := h
          obtain ⟨h1, h2⟩ := ih b hcut
          simp [h1, h2, hc2]
  · rintro ⟨rfl, h⟩
    exact Cut_append host rest h

theorem Atoi_eq_some (s : GoString) (v : Int) :
    Atoi s = some v ↔ IsDecimal s v ∧ -(2 : Int) ^ 63 ≤ v ∧ v < (2 : Int) ^ 63 := by
  constructor
  · intro h
    cases s with
    | nil => simp [Atoi] at h
    | cons c rest =>
      by_cases hneg : c = '-'
      · subst hneg
        by_cases hb : rest = []
        · simp [Atoi, hb] at h
        · cases hun : parseDigits 0 rest with
          | none => simp [Atoi, hb, hun] at h
          | some un =>
            obtain ⟨hds, hval⟩ := (parseDigits_eq_some _ 0 un).mp hun
            by_cases hgt : un > 9223372036854775808
            · simp [Atoi, hb, hun, hgt] at h
            · simp [Atoi, hb, hun, hgt] at h
              subst h
              refine ⟨⟨rest, ⟨hb, hds⟩, Or.inr ⟨rfl, ?_⟩⟩, ?_, ?_⟩
              · simp [decimalValue, hval]
              · norm_num
                omega
              · norm_num
                omega
      · by_cases hpos : c = '+'
        · subst hpos
          by_cases hb : rest = []
          · simp [Atoi, hb] at h
          · cases hun : parseDigits 0 rest with
            | none => simp [Atoi, hb, hun] at h
            | some un =>
              obtain ⟨hds, hval⟩ := (parseDigits_eq_some _ 0 un).mp hun
              by_cases hge : 9223372036854775808 ≤ un
              · simp [Atoi, hb, hun, hge] at h
              · simp [Atoi, hb, hun, hge] at h
                subst h
                refine ⟨⟨rest, ⟨hb, hds⟩, Or.inl ⟨Or.inr rfl, ?_⟩⟩, ?_, ?_⟩
                · simp [decimalValue, hval]
                · norm_num
                  omega
                · norm_num
                  omega
        · cases hun : parseDigits 0 (c :: rest) with
          | none => simp [Atoi, hneg, hpos, hun] at h
          | some un =>
            obtain ⟨hds, hval⟩ := (parseDigits_eq_some _ 0 un).mp hun
            by_cases hge : 9223372036854775808 ≤ un
            · simp [Atoi, hneg, hpos, hun, hge] at h
            · simp [Atoi, hneg, hpos, hun, hge] at h
              subst h
              refine ⟨⟨c :: rest, ⟨by simp, hds⟩, Or.inl ⟨Or.inl rfl, ?_⟩⟩, ?_, ?_⟩
              · simp [decimalValue, hval]
              · norm_num
                omega
              · norm_num
                omega
  · rintro ⟨⟨ds, ⟨hne, hds⟩, hform⟩, hlo, hhi⟩
    have hparse : parseDigits 0 ds = some (decimalValue ds) :=
      (parseDigits_eq_some ds 0 _).mpr ⟨hds, rfl⟩
    norm_num at hlo hhi
    rcases hform with ⟨hs | hs, hv⟩ | ⟨hs, hv⟩
    · subst hs
      cases s with
      | nil => exact absurd rfl hne
      | cons c rest =>
        obtain ⟨h1, h2⟩ := digit_ne_sign (hds c (by simp))
        have hlt : decimalValue (c :: rest) < 9223372036854775808 := by omega
        simp [Atoi, h1, h2, hparse, hlt, hv]
    · subst hs
      have hlt : decimalValue ds < 9223372036854775808 := by omega
      have hplus : ('+' : Char) ≠ '-' := by decide
      simp [Atoi, hne, hparse, hlt, hv, hplus]
    · subst hs
      have hle : decimalValue ds ≤ 9223372036854775808 := by omega
      simp [Atoi, hne, hparse, hle, hv]

theorem HasPrefixHash_append (host rest : GoString) :
    HasPrefixHash (host ++ ':' :: rest) = HasPrefixHash host := by
  cases host with
  | nil => simp [HasPrefixHash]
  | cons c cs => simp [HasPrefixHash]

theorem parseLine_eq_some (hint text : GoString) (p : Proxy) :
    parseLine hint text = some p ↔
      ∃ host portStr port, TrimSpace text = host ++ ':' :: portStr ∧ ':' ∉ host ∧
        HasPrefixHash host = false ∧ Atoi portStr = some port ∧
        p = { IP := host, Port := port, Protocol := hint } := by
  constructor
  · intro h
    by_cases h0 : TrimSpace text = [] ∨ HasPrefixHash (TrimSpace text) = true
    · simp [parseLine, h0] at h
    · cases hcut : Cut (TrimSpace text) with
      | none => simp [parseLine, h0, hcut] at h
      | some pr =>
        obtain ⟨host, portStr⟩ := pr
        cases hat : Atoi portStr with
        | none => simp [parseLine, h0, hcut, hat] at h
        | some port =>
          simp only [parseLine, h0, if_false, hcut, hat, Option.some.injEq] at h
          obtain ⟨hs, hnot⟩ := (Cut_eq_some _ _ _).mp hcut
          refine ⟨host, portStr, port, hs, hnot, ?_, hat, h.symm⟩
          have h2 : ¬ HasPrefixHash (TrimSpace text) = true := fun e => h0 (Or.inr e)
          rw [hs, HasPrefixHash_append] at h2
          simpa using h2
  · rintro ⟨host, portStr, port, hs, hnot, hhash, hat, rfl⟩
    have hcut : Cut (TrimSpace text) = some (host, portStr) := by
      rw [hs]; exact Cut_append host portStr hnot
    have h1 : TrimSpace text ≠ [] := by rw [hs]; simp
    have h2 : HasPrefixHash (TrimSpace text) = false := by
      rw [hs, HasPrefixHash_append]; exact hhash
    simp [parseLine, h1, h2, hcut, hat]

theorem parseLine_eq_none_of_junk (hint text : GoString)
    (h : TrimSpace text = [] ∨ HasPrefixHash (TrimSpace text) = true ∨ ':' ∉ TrimSpace text) :
    parseLine hint text = none := by
  rcases h with h | h | h
  · simp [parseLine, h]
  · simp [parseLine, h]
  · have hcut := (Cut_eq_none _).mpr h
    by_cases h0 : TrimSpace text = [] ∨ HasPrefixHash (TrimSpace text) = true
    · simp [parseLine, h0]
    · simp [parseLine, h0, hcut]

theorem scanLoop_ok (hint : GoString) (raws : List GoString) (acc : List Proxy)
    (hfit : ∀ raw ∈ raws, byteLen raw < MaxScanTokenSize) :
    scanLoop hint raws acc =
      .ok (acc ++ raws.filterMap (fun raw => parseLine hint (dropCR raw))) := by
  induction raws generalizing acc with
  | nil => simp [scanLoop]
  | cons raw rest ih =>
    have h1 : ¬ MaxScanTokenSize ≤ byteLen raw := Nat.not_le.mpr (hfit raw (by simp))
    have h2 : ∀ r ∈ rest, byteLen r < MaxScanTokenSize := fun r hr => hfit r (by simp [hr])
    cases hp : parseLine hint (dropCR raw) with
    | none => simp [scanLoop, h1, hp, ih acc h2]
    | some p => simp [scanLoop, h1, hp, ih (acc ++ [p]) h2]

theorem rawLinesAux_no_newline (acc s : GoString) (hs : '\n' ∉ s) (hne : acc ++ s ≠ []) :
    rawLinesAux acc s = [acc.reverse ++ s] := by
  induction s generalizing acc with
  | nil =>
    have : acc ≠ [] := by simpa using hne
    simp [rawLinesAux, this]
  | cons c cs ih =>
    have hc : c ≠ '\n' := fun e => hs (by simp [e])
    have hcs : '\n' ∉ cs := fun e => hs (by simp [e])
    simp [rawLinesAux, hc, ih (c :: acc) hcs (by simp)]

theorem byteLen_replicate_a (n : Nat) : byteLen (List.replicate n 'a') = n := by
  induction n with
  | zero => simp [byteLen]
  | succ k ih =>
    have h1 : Char.utf8Size 'a' = 1 := by decide
    simp only [byteLen] at ih
    simp [byteLen, List.replicate_succ, h1, ih, Nat.add_comm]

theorem Fetch_long_line (hint : GoString) (n : Nat) (hn : MaxScanTokenSize ≤ n) :
    Fetch hint (.response 200 (List.replicate n 'a')) = .error FetchError.scanError := by
  have hpos : 0 < n := Nat.lt_of_lt_of_le (by decide) hn
  have hraw : rawLines (List.replicate n 'a') = [List.replicate n 'a'] := by
    have h := rawLinesAux_no_newline [] (List.replicate n 'a')
      (by intro h; have := List.eq_of_mem_replicate h; revert this; decide)
      (by intro h; have := congrArg List.length h; simp at this; omega)
    simpa [rawLines] using h
  have hlen : MaxScanTokenSize ≤ byteLen (List.replicate n 'a') := by
    rw [byteLen_replicate_a]; exact hn
  simp [Fetch, hraw, scanLoop, hlen]

/-- C1 (counterexample): lines whose right side is 0, negative or above 65535
are not skipped: each of them yields a candidate carrying that port. -/
theorem C1_out_of_range_ports_accepted :
    Fetch "http".toList (.response 200 "1.1.1.1:0\n1.1.1.1:-1\n1.1.1.1:65536\n".toList) =
      .ok [{ IP := "1.1.1.1".toList, Port := 0, Protocol := "http".toList },
           { IP := "1.1.1.1".toList, Port := -1, Protocol := "http".toList },
           { IP := "1.1.1.1".toList, Port := 65536, Protocol := "http".toList }] := by
  rfl

/-- C1 (amended): for every line handled by the scan loop of Fetch, a candidate
is produced exactly when the trimmed line is `host:rest` with no `:` in host,
host not starting with `#`, and `rest` a decimal numeral (digits with an
optional sign) whose value fits the 64-bit `int`; the candidate carries host,
that value as port, and the source's protocol. No range [1, 65535] is imposed. -/
theorem C1_candidate_iff_decimal_int (hint text : GoString) (p : Proxy) :
    parseLine hint text = some p ↔
      ∃ host portStr, TrimSpace text = host ++ ':' :: portStr ∧ ':' ∉ host ∧
        HasPrefixHash host = false ∧ IsDecimal portStr p.Port ∧
        -(2 : Int) ^ 63 ≤ p.Port ∧ p.Port < (2 : Int) ^ 63 ∧
        p = { IP := host, Port := p.Port, Protocol := hint } := by
  rw [parseLine_eq_some]
  constructor
  · rintro ⟨host, portStr, port, hs, hnot, hhash, hat, rfl⟩
    obtain ⟨hdec, hlo, hhi⟩ := (Atoi_eq_some _ _).mp hat
    exact ⟨host, portStr, hs, hnot, hhash, hdec, hlo, hhi, rfl⟩
  · rintro ⟨host, portStr, hs, hnot, hhash, hdec, hlo, hhi, hp⟩
    exact ⟨host, portStr, p.Port, hs, hnot, hhash, (Atoi_eq_some _ _).mpr ⟨hdec, hlo, hhi⟩, hp⟩

/-- C2 (counterexample): a payload fetched with status 200 whose single line is
65536 bytes long makes Fetch return a scan error. -/
theorem C2_long_line_is_scan_error :
    Fetch "http".toList (.response 200 (List.replicate 65536 'a')) =
      .error FetchError.scanError :=
  Fetch_long_line "http".toList 65536 (by decide)

/-- C2 (amended): for every payload fetched with status 200 in which every line
is shorter than 65536 bytes, Fetch returns no error and returns, in payload
order, the candidates of the lines its parser accepts; a line that after
trimming is `host:port` (no `:` in host, host not starting with `#`, port a
decimal in [1, 65535]) yields exactly the candidate (host, port, hint), and a
line that after trimming is empty, starts with `#` or has no `:` yields none. -/
theorem C2_fetch_candidates (hint body : GoString)
    (hfit : ∀ raw ∈ rawLines body, byteLen raw < MaxScanTokenSize) :
    Fetch hint (.response 200 body) =
        .ok ((rawLines body).filterMap (fun raw => parseLine hint (dropCR raw))) ∧
      (∀ text host portStr v, TrimSpace text = host ++ ':' :: portStr → ':' ∉ host →
        HasPrefixHash host = false → IsDecimal portStr v → 1 ≤ v → v ≤ 65535 →
        parseLine hint text = some { IP := host, Port := v, Protocol := hint }) ∧
      (∀ text, (TrimSpace text = [] ∨ HasPrefixHash (TrimSpace text) = true ∨
        ':' ∉ TrimSpace text) → parseLine hint text = none) := by
  refine ⟨?_, ?_, ?_⟩
  · have h := scanLoop_ok hint (rawLines body) [] hfit
    simpa [Fetch] using h
  · intro text host portStr v hs hnot hhash hdec h1 h2
    refine (parseLine_eq_some hint text _).mpr ⟨host, portStr, v, hs, hnot, hhash, ?_, rfl⟩
    exact (Atoi_eq_some _ _).mpr ⟨hdec, by norm_num; omega, by norm_num; omega⟩
  · intro text h
    exact parseLine_eq_none_of_junk hint text h

/-- C2 (witness): the payload of the repository's test, with hint http, yields
exactly the two candidates (1.1.1.1, 8080) and (2.2.2.2, 9000). -/
theorem C2_fetch_candidates_witness :
    (∀ raw ∈ rawLines "1.1.1.1:8080\n2.2.2.2:9000\ninvalid_line\n# comment\n".toList,
        byteLen raw < MaxScanTokenSize) ∧
      Fetch "http".toList
          (.response 200 "1.1.1.1:8080\n2.2.2.2:9000\ninvalid_line\n# comment\n".toList) =
        .ok [{ IP := "1.1.1.1".toList, Port := 8080, Protocol := "http".toList },
             { IP := "2.2.2.2".toList, Port := 9000, Protocol := "http".toList }] :=
  ⟨by decide,
   (C2_fetch_candidates "http".toList
      "1.1.1.1:8080\n2.2.2.2:9000\ninvalid_line\n# comment\n".toList (by decide)).1.trans rfl⟩

/-! ## Checker -/

/-- C3: for a proxy whose URL parses and a target URL that builds a request,
Check returns no error; with a response of status in [200, 400) the result is
alive with the elapsed milliseconds as latency, and with any other status or a
transport failure the result is not alive with latency 0. -/
theorem C3_check_result_mapping (c : Checker) (env : ProbeEnv) (p : Proxy)
    (hproxy : env.urlParse (proxyStr p) = true) (htarget : env.newRequest c.TargetURL = true) :
    (∀ status, env.doOutcome = .response status → 200 ≤ status → status < 400 →
        Check c env p = .ok { Alive := true, LatencyMS := env.elapsedMs }) ∧
      (∀ status, env.doOutcome = .response status → ¬ (200 ≤ status ∧ status < 400) →
        Check c env p = .ok { Alive := false, LatencyMS := 0 }) ∧
      (∀ err, env.doOutcome = .failed err →
        Check c env p = .ok { Alive := false, LatencyMS := 0 }) := by
  refine ⟨?_, ?_, ?_⟩
  · intro status hdo h1 h2
    simp [Check, hproxy, htarget, hdo, h1, h2]
  · intro status hdo hnot
    have hnot2 : ¬ (status ≥ 200 ∧ status < 400) := hnot
    simp only [Check, hproxy, htarget, hdo, hnot2]
    simp
  · intro err hdo
    simp [Check, hproxy, htarget, hdo]

/-- C3 (witness): a proxy answering 204 after 37 ms is alive with latency 37. -/
theorem C3_check_result_mapping_witness :
    Check ⟨"http://google.com".toList, 5000⟩
        ⟨fun _ => true, fun _ => true, .response 204, 37⟩
        { IP := "1.1.1.1".toList, Port := 8080, Protocol := "http".toList } =
      .ok { Alive := true, LatencyMS := 37 } :=
  (C3_check_result_mapping ⟨"http://google.com".toList, 5000⟩
    ⟨fun _ => true, fun _ => true, .response 204, 37⟩
    { IP := "1.1.1.1".toList, Port := 8080, Protocol := "http".toList } rfl rfl).1
    204 rfl (by decide) (by decide)

/-- C4 (counterexample): when the probe is aborted by cancellation, Check
returns the dead result with a nil error, not a cancellation error. -/
theorem C4_cancelled_probe_returns_no_error :
    Check ⟨"http://google.com".toList, 5000⟩
        ⟨fun _ => true, fun _ => true, .failed TransportError.contextCanceled, 3⟩
        { IP := "1.1.1.1".toList, Port := 8080, Protocol := "http".toList } =
      .ok { Alive := false, LatencyMS := 0 } := by
  rfl

/-- C4 (amended): for a well-formed proxy and target URL, a probe aborted by
cancellation makes Check return alive = false, latency 0 and a nil error, the
same result as for any other transport failure; Check returns an error only
for a proxy URL that does not parse or a target URL that builds no request,
and those two errors differ. -/
theorem C4_cancellation_is_a_dead_result (c : Checker) (env : ProbeEnv) (p : Proxy) :
    (env.urlParse (proxyStr p) = true → env.newRequest c.TargetURL = true →
        env.doOutcome = .failed TransportError.contextCanceled →
        Check c env p = .ok { Alive := false, LatencyMS := 0 }) ∧
      (∀ e, Check c env p = .error e ↔
        (env.urlParse (proxyStr p) = false ∧ e = CheckError.invalidProxyURL) ∨
          (env.urlParse (proxyStr p) = true ∧ env.newRequest c.TargetURL = false ∧
            e = CheckError.badRequest)) ∧
      CheckError.invalidProxyURL ≠ CheckError.badRequest := by
  refine ⟨?_, ?_, by decide⟩
  · intro hproxy htarget hdo
    simp [Check, hproxy, htarget, hdo]
  · intro e
    cases hproxy : env.urlParse (proxyStr p) with
    | false =>
      simp [Check, hproxy]
      exact eq_comm
    | true =>
      cases htarget : env.newRequest c.TargetURL with
      | false =>
        simp [Check, hproxy, htarget]
        exact eq_comm
      | true =>
        cases hdo : env.doOutcome with
        | failed err => simp [Check, hproxy, htarget, hdo]
        | response status =>
          by_cases hs : status ≥ 200 ∧ status < 400
          · simp [Check, hproxy, htarget, hdo, hs]
          · simp only [Check, hproxy, htarget, hdo, hs]
            simp

/-- C4 (witness): the amended statement at a cancelled probe of 1.1.1.1:8080. -/
theorem C4_cancellation_is_a_dead_result_witness :
    Check ⟨"http://google.com".toList, 5000⟩
        ⟨fun _ => true, fun _ => true, .failed TransportError.contextCanceled, 3⟩
        { IP := "1.1.1.1".toList, Port := 8080, Protocol := "http".toList } =
      .ok { Alive := false, LatencyMS := 0 } :=
  (C4_cancellation_is_a_dead_result ⟨"http://google.com".toList, 5000⟩
    ⟨fun _ => true, fun _ => true, .failed TransportError.contextCanceled, 3⟩
    { IP := "1.1.1.1".toList, Port := 8080, Protocol := "http".toList }).1 rfl rfl rfl

/-! ## Worker step -/

theorem workerStep_latency_pos (c : Checker) (env : ProbeEnv) (geo : Option GeoService)
    (now : Time) (p : Proxy)
    (h : 0 < (workerStep geo (Check c env p) now p).LatencyMS) :
    ∃ status, env.doOutcome = .response status ∧ 200 ≤ status ∧ status < 400 := by
  unfold Check at h
  split at h
  · simp [workerStep] at h
  · split at h
    · simp [workerStep] at h
    · split at h
      · simp [workerStep] at h
      · rename_i status hdo
        split at h
        · rename_i hs
          exact ⟨status, hdo, hs.1, hs.2⟩
        · simp [workerStep] at h

/-- C5 (failing input): a probe that reads status 200 less than a millisecond
after its start is reported alive with latency 0, and the worker step records
it with latency 0 and a non-null check time, as it records a dead proxy. -/
theorem C5_alive_probe_recorded_with_zero_latency :
    Check ⟨"http://google.com".toList, 5000⟩
        ⟨fun _ => true, fun _ => true, .response 200, 0⟩
        { ID := 7, IP := "127.0.0.1".toList, Port := 8080, Protocol := "http".toList } =
      .ok { Alive := true, LatencyMS := 0 } ∧
    workerStep none
        (Check ⟨"http://google.com".toList, 5000⟩
          ⟨fun _ => true, fun _ => true, .response 200, 0⟩
          { ID := 7, IP := "127.0.0.1".toList, Port := 8080, Protocol := "http".toList })
        1000
        { ID := 7, IP := "127.0.0.1".toList, Port := 8080, Protocol := "http".toList } =
      { ID := 7, IP := "127.0.0.1".toList, Port := 8080, Protocol := "http".toList,
        LatencyMS := 0, LastCheckedAt := some 1000 } ∧
    workerStep none
        (Check ⟨"http://google.com".toList, 5000⟩
          ⟨fun _ => true, fun _ => true, .failed TransportError.connectionRefused, 0⟩
          { ID := 7, IP := "127.0.0.1".toList, Port := 8080, Protocol := "http".toList })
        1000
        { ID := 7, IP := "127.0.0.1".toList, Port := 8080, Protocol := "http".toList } =
      { ID := 7, IP := "127.0.0.1".toList, Port := 8080, Protocol := "http".toList,
        LatencyMS := 0, LastCheckedAt := some 1000 } := by
  refine ⟨rfl, rfl, rfl⟩

/-- C6: one worker step sets last_checked_at to the current time whatever the
outcomes; after a check without error and alive it sets latency_ms to the
result's latency and, when a GeoIP service is present and its lookup returns
no error and a non-empty ISO code, sets country to that code; after a check
with an error or not alive it sets latency_ms to 0 and leaves country as it was. -/
theorem C6_worker_step (geo : Option GeoService) (check : Except CheckError CheckResult)
    (now : Time) (p : Proxy) :
    (workerStep geo check now p).LastCheckedAt = some now ∧
      (∀ res, check = .ok res → res.Alive = true →
        (workerStep geo check now p).LatencyMS = res.LatencyMS ∧
          (∀ svc, geo = some svc → (svc.Lookup p.IP).2.2 = none → (svc.Lookup p.IP).1 ≠ [] →
            (workerStep geo check now p).Country = (svc.Lookup p.IP).1)) ∧
      (((∃ err, check = .error err) ∨ (∃ res, check = .ok res ∧ res.Alive = false)) →
        (workerStep geo check now p).LatencyMS = 0 ∧
          (workerStep geo check now p).Country = p.Country) := by
  refine ⟨?_, ?_, ?_⟩
  · cases check with
    | error err => simp [workerStep]
    | ok res =>
      cases hal : res.Alive with
      | false => simp [workerStep, hal]
      | true =>
        cases geo with
        | none => simp [workerStep, hal]
        | some svc =>
          by_cases hl : (svc.Lookup p.IP).2.2 = none ∧ (svc.Lookup p.IP).1 ≠ []
          · simp [workerStep, hal, hl]
          · simp only [workerStep, hal, hl]
            simp
  · rintro res rfl hal
    cases geo with
    | none => simp [workerStep, hal]
    | some svc =>
      by_cases hl : (svc.Lookup p.IP).2.2 = none ∧ (svc.Lookup p.IP).1 ≠ []
      · refine ⟨by simp [workerStep, hal, hl], ?_⟩
        intro svc2 hsvc _ _
        cases hsvc
        simp [workerStep, hal, hl]
      · refine ⟨by simp only [workerStep, hal, hl]; simp, ?_⟩
        intro svc2 hsvc h1 h2
        cases hsvc
        exact absurd ⟨h1, h2⟩ hl
  · rintro (⟨err, rfl⟩ | ⟨res, rfl, hal⟩)
    · simp [workerStep]
    · simp [workerStep, hal]

/-- C6 (witness): a live check of 37 ms with a GeoIP service answering "ID". -/
theorem C6_worker_step_witness :
    (workerStep (some ⟨fun _ => true, fun _ => some ("ID".toList, "Indonesia".toList)⟩)
        (.ok { Alive := true, LatencyMS := 37 }) 1000
        { ID := 7, IP := "1.1.1.1".toList, Port := 8080, Protocol := "http".toList }).Country =
      "ID".toList :=
  ((C6_worker_step
    (some ⟨fun _ => true, fun _ => some ("ID".toList, "Indonesia".toList)⟩)
    (.ok { Alive := true, LatencyMS := 37 }) 1000
    { ID := 7, IP := "1.1.1.1".toList, Port := 8080, Protocol := "http".toList }).2.1
      _ rfl rfl).2 _ rfl rfl (by decide)

/-- C7: the worker step never blanks country or protocol: a non-empty country
stays non-empty, protocol is unchanged, and id, ip, port, anonymity and
created_at are unchanged. -/
theorem C7_worker_step_frame (geo : Option GeoService)
    (check : Except CheckError CheckResult) (now : Time) (p : Proxy) :
    (p.Country ≠ [] → (workerStep geo check now p).Country ≠ []) ∧
      (workerStep geo check now p).Protocol = p.Protocol ∧
      (workerStep geo check now p).ID = p.ID ∧
      (workerStep geo check now p).IP = p.IP ∧
      (workerStep geo check now p).Port = p.Port ∧
      (workerStep geo check now p).Anonymity = p.Anonymity ∧
      (workerStep geo check now p).CreatedAt = p.CreatedAt := by
  cases check with
  | error err => simp [workerStep]
  | ok res =>
    cases hal : res.Alive with
    | false => simp [workerStep, hal]
    | true =>
      cases geo with
      | none => simp [workerStep, hal]
      | some svc =>
        by_cases hl : (svc.Lookup p.IP).2.2 = none ∧ (svc.Lookup p.IP).1 ≠ []
        · simp only [workerStep, hal, hl]
          simp [hl.2]
        · simp only [workerStep, hal, hl]
          simp

/-- C7 (witness): a proxy with country "ID" keeps it after a failed check. -/
theorem C7_worker_step_frame_witness :
    (workerStep none (.error CheckError.badRequest) 1000
        { ID := 7, IP := "1.1.1.1".toList, Port := 8080, Protocol := "http".toList,
          Country := "ID".toList }).Country ≠ [] :=
  (C7_worker_step_frame none (.error CheckError.badRequest) 1000
    { ID := 7, IP := "1.1.1.1".toList, Port := 8080, Protocol := "http".toList,
      Country := "ID".toList }).1 (by decide)

/-! ## SaveBatch -/

theorem execLoop_none (wrap : Nat → DbError → RepoError) (exec : Nat → Option DbError)
    (n i : Nat) (h : ∀ j, i ≤ j → j < i + n → exec j = none) :
    execLoop wrap exec n i = none := by
  induction n generalizing i with
  | zero => rfl
  | succ k ih =>
    have h0 : exec i = none := h i (Nat.le_refl i) (by omega)
    simp only [execLoop, h0]
    exact ih (i + 1) (fun j h1 h2 => h j (by omega) (by omega))

theorem execLoop_first_failure (wrap : Nat → DbError → RepoError)
    (exec : Nat → Option DbError) (n i k : Nat) (err : DbError)
    (hk1 : i ≤ k) (hk2 : k < i + n) (hfail : exec k = some err)
    (hbefore : ∀ j, i ≤ j → j < k → exec j = none) :
    execLoop wrap exec n i = some (wrap k err) := by
  induction n generalizing i with
  | zero => omega
  | succ m ih =>
    by_cases hik : i = k
    · subst hik
      simp [execLoop, hfail]
    · have h0 : exec i = none := hbefore i (Nat.le_refl i) (by omega)
      simp only [execLoop, h0]
      exact ih (i + 1) (by omega) (by omega) (fun j h1 h2 => hbefore j (by omega) h2)

/-- C8: SaveBatch returns nil for an empty batch, having sent no statement, and
nil when every row's insert succeeds; otherwise its error names the index of
the first failing row and wraps that row's error. -/
theorem C8_save_batch_first_failure (proxies : List Proxy) (exec : Nat → Option DbError) :
    (proxies = [] → SaveBatch proxies exec = { sent := [], err := none }) ∧
      ((∀ i, i < proxies.length → exec i = none) → (SaveBatch proxies exec).err = none) ∧
      (∀ i err, i < proxies.length → exec i = some err → (∀ j, j < i → exec j = none) →
        (SaveBatch proxies exec).err = some (RepoError.insertItem i err)) := by
  refine ⟨?_, ?_, ?_⟩
  · rintro rfl
    simp [SaveBatch]
  · intro h
    by_cases h0 : proxies.length = 0
    · simp [SaveBatch, h0]
    · simp only [SaveBatch, h0, if_false]
      exact execLoop_none _ _ _ _ (fun j _ h2 => h j (by omega))
  · intro i err hi hfail hbefore
    have h0 : proxies.length ≠ 0 := by omega
    simp only [SaveBatch, h0, if_false]
    exact execLoop_first_failure _ _ _ 0 i err (Nat.zero_le i) (by omega) hfail
      (fun j _ h2 => hbefore j h2)

/-- C8 (witness): of three rows whose second and third inserts fail, the error
names row 1 and wraps its error. -/
theorem C8_save_batch_first_failure_witness :
    (SaveBatch [{ IP := "1.1.1.1".toList, Port := 80 }, { IP := "2.2.2.2".toList, Port := 81 },
        { IP := "3.3.3.3".toList, Port := 82 }]
      (fun i => if i = 0 then none else some ⟨i⟩)).err = some (RepoError.insertItem 1 ⟨1⟩) :=
  (C8_save_batch_first_failure
    [{ IP := "1.1.1.1".toList, Port := 80 }, { IP := "2.2.2.2".toList, Port := 81 },
      { IP := "3.3.3.3".toList, Port := 82 }]
    (fun i => if i = 0 then none else some ⟨i⟩)).2.2 1 ⟨1⟩ (by decide) rfl
    (fun j hj => by
      have : j = 0 := by omega
      subst this
      rfl)

/-! ## Natural-key uniqueness -/

theorem rowCount_eq_zero_of_hasKey_false (store : Store) (ip : GoString) (port : Int)
    (h : hasKey store ip port = false) : rowCount store ip port = 0 := by
  simp only [hasKey, List.any_eq_false] at h
  simp only [rowCount, List.countP_eq_zero]
  exact h

theorem hasKey_false_of_append (store added : Store) (ip : GoString) (port : Int)
    (h : hasKey (store ++ added) ip port = false) : hasKey store ip port = false := by
  simp only [hasKey, List.any_eq_false] at h ⊢
  exact fun r hr => h r (List.mem_append_left _ hr)

theorem insert_spec (now : Time) (store : Store) (st : InsertStmt) (h : KeyUnique store) :
    ∃ added, insertOnConflictDoNothing now store st = store ++ added ∧
      (∀ r ∈ added, hasKey store r.IP r.Port = false) ∧ KeyUnique (store ++ added) := by
  cases hk : hasKey store st.ip st.port with
  | true =>
    refine ⟨[], by simp [insertOnConflictDoNothing, hk], by simp, ?_⟩
    simpa using h
  | false =>
    refine ⟨[{ ID := nextID store, IP := st.ip, Port := st.port, Protocol := st.protocol,
               CreatedAt := now }], by simp [insertOnConflictDoNothing, hk], ?_, ?_⟩
    · intro r hr
      simp only [List.mem_singleton] at hr
      subst hr
      exact hk
    · intro ip port
      simp only [rowCount, List.countP_append, List.countP_singleton]
      by_cases hkey : st.ip = ip ∧ st.port = port
      · obtain ⟨rfl, rfl⟩ := hkey
        have h0 := rowCount_eq_zero_of_hasKey_false store st.ip st.port hk
        simp only [rowCount] at h0
        rw [h0]
        simp
      · have h1 := h ip port
        simp only [rowCount] at h1
        simp only [hkey, decide_False]
        simpa using h1

theorem applyInserts_spec (now : Time) (applied : Nat → Bool) (stmts : List InsertStmt)
    (i : Nat) (store : Store) (h : KeyUnique store) :
    ∃ added, applyInserts now applied i store stmts = store ++ added ∧
      (∀ r ∈ added, hasKey store r.IP r.Port = false) ∧ KeyUnique (store ++ added) := by
  induction stmts generalizing i store with
  | nil => exact ⟨[], by simp [applyInserts], by simp, by simpa using h⟩
  | cons st rest ih =>
    cases ha : applied i with
    | false =>
      obtain ⟨added, h1, h2, h3⟩ := ih (i + 1) store h
      exact ⟨added, by simp [applyInserts, ha, h1], h2, h3⟩
    | true =>
      obtain ⟨a1, e1, k1, u1⟩ := insert_spec now store st h
      obtain ⟨a2, e2, k2, u2⟩ := ih (i + 1) (store ++ a1) u1
      refine ⟨a1 ++ a2, ?_, ?_, ?_⟩
      · simp [applyInserts, ha, e1, e2]
      · intro r hr
        rcases List.mem_append.mp hr with hr | hr
        · exact k1 r hr
        · exact hasKey_false_of_append store a1 _ _ (k2 r hr)
      · simpa [List.append_assoc] using u2

theorem saveBatchStore_spec (store : Store) (call : SaveCall) (h : KeyUnique store) :
    ∃ added, saveBatchStore store call = store ++ added ∧
      (∀ r ∈ added, hasKey store r.IP r.Port = false) ∧ KeyUnique (store ++ added) :=
  applyInserts_spec call.now call.applied _ 0 store h

theorem saveBatches_unique (calls : List SaveCall) (store : Store) (h : KeyUnique store) :
    KeyUnique (saveBatches store calls) := by
  induction calls generalizing store with
  | nil => simpa [saveBatches] using h
  | cons call rest ih =>
    obtain ⟨added, e, _, u⟩ := saveBatchStore_spec store call h
    have hu : KeyUnique (saveBatchStore store call) := by rw [e]; exact u
    simpa [saveBatches] using ih (saveBatchStore store call) hu

/-- C9: over a store in which each (ip, port) occurs at most once, a call of
SaveBatch keeps every row there was, in place, and adds rows only for keys
that were not present; after every sequence of calls the number of rows for any
(ip, port) is at most 1. -/
theorem C9_natural_key_unique (store : Store) (h : KeyUnique store) :
    (∀ call, ∃ added, saveBatchStore store call = store ++ added ∧
        ∀ r ∈ added, hasKey store r.IP r.Port = false) ∧
      (∀ calls ip port, rowCount (saveBatches store calls) ip port ≤ 1) := by
  refine ⟨?_, ?_⟩
  · intro call
    obtain ⟨added, e, k, _⟩ := saveBatchStore_spec store call h
    exact ⟨added, e, k⟩
  · intro calls ip port
    exact saveBatches_unique calls store h ip port

/-- C9 (witness): from the empty store, the same batch saved twice, itself
repeating a key, leaves one row for that key. -/
theorem C9_natural_key_unique_witness :
    KeyUnique [] ∧
      rowCount
        (saveBatches []
          [⟨[{ IP := "1.1.1.1".toList, Port := 8080 }, { IP := "1.1.1.1".toList, Port := 8080 }],
              fun _ => none, fun _ => true, 5⟩,
            ⟨[{ IP := "1.1.1.1".toList, Port := 8080 }, { IP := "1.1.1.1".toList, Port := 8080 }],
              fun _ => none, fun _ => true, 9⟩])
        "1.1.1.1".toList 8080 ≤ 1 :=
  ⟨fun _ _ => Nat.zero_le 1,
   (C9_natural_key_unique [] (fun _ _ => Nat.zero_le 1)).2 _ _ _⟩

/-! ## Writer -/

theorem New_BatchSize_pos (chk : Checker) (geo : Option GeoService) (cfg : Config) :
    0 < (New chk geo cfg).cfg.BatchSize := by
  simp only [New]
  by_cases h1 : cfg.NumWorkers ≤ 0 <;> by_cases h2 : cfg.BatchSize ≤ 0 <;>
    simp [h1, h2] <;> omega

theorem flush_batch (updateFails : Nat → Bool) (s : WriterState) :
    (flush updateFails s).batch = [] := by
  unfold flush
  split
  · rfl
  · rename_i h
    simpa using h

theorem flush_calls_of_ne_nil (updateFails : Nat → Bool) (s : WriterState)
    (h : s.batch ≠ []) : (flush updateFails s).calls = s.calls ++ [s.batch] := by
  have : s.batch.length > 0 := List.length_pos.mpr h
  simp [flush, this]

theorem writerStep_batch_lt (e : Engine) (updateFails : Nat → Bool) (s : WriterState)
    (ev : WriterEvent) (hpos : 0 < e.cfg.BatchSize) :
    ((writerStep e updateFails s ev).batch.length : Int) < e.cfg.BatchSize := by
  cases ev with
  | cancel => simpa [writerStep, flush_batch] using hpos
  | tick => simpa [writerStep, flush_batch] using hpos
  | closed => simpa [writerStep, flush_batch] using hpos
  | result p =>
    simp only [writerStep]
    split
    · simpa [flush_batch] using hpos
    · rename_i hlt
      exact Int.lt_of_not_ge hlt

theorem foldl_writer_batch_lt (e : Engine) (updateFails : Nat → Bool)
    (events : List WriterEvent) (s : WriterState) (hpos : 0 < e.cfg.BatchSize)
    (h : (s.batch.length : Int) < e.cfg.BatchSize) :
    (((events.foldl (fun s ev => if s.returned then s else writerStep e updateFails s ev)
      s).batch.length : Nat) : Int) < e.cfg.BatchSize := by
  induction events generalizing s with
  | nil => simpa using h
  | cons ev rest ih =>
    simp only [List.foldl_cons]
    apply ih
    split
    · exact h
    · exact writerStep_batch_lt e updateFails s ev hpos

/-- C10: in the writer of an engine built by New, the buffer is empty after
each flush whether UpdateBatch failed or not; a result that brings the buffer
length to batch_size is flushed at once, the whole buffer going to UpdateBatch;
and after any sequence of events the buffer holds fewer than batch_size
results. -/
theorem C10_writer_buffer_invariant (chk : Checker) (geo : Option GeoService) (cfg : Config)
    (updateFails : Nat → Bool) :
    (∀ s, (flush updateFails s).batch = []) ∧
      (∀ s p, (New chk geo cfg).cfg.BatchSize ≤ ((s.batch.length + 1 : Nat) : Int) →
        (writerStep (New chk geo cfg) updateFails s (.result p)).batch = [] ∧
          (writerStep (New chk geo cfg) updateFails s (.result p)).calls =
            s.calls ++ [s.batch ++ [p]]) ∧
      (∀ events, ((runWriter (New chk geo cfg) updateFails events).batch.length : Int) <
        (New chk geo cfg).cfg.BatchSize) := by
  refine ⟨flush_batch updateFails, ?_, ?_⟩
  · intro s p hfull
    have hge : ((({ s with batch := s.batch ++ [p] } : WriterState).batch.length : Nat) : Int) ≥
        (New chk geo cfg).cfg.BatchSize := by
      simpa using hfull
    simp only [writerStep, hge, if_true]
    refine ⟨flush_batch _ _, ?_⟩
    rw [flush_calls_of_ne_nil _ _ (by simp)]
  · intro events
    exact foldl_writer_batch_lt _ updateFails events {} (New_BatchSize_pos chk geo cfg)
      (by simpa using New_BatchSize_pos chk geo cfg)

/-- C10 (witness): with batch_size 2 and every UpdateBatch failing, three results
and a tick leave an empty buffer, below batch_size. -/
theorem C10_writer_buffer_invariant_witness :
    ((runWriter (New ⟨"http://google.com".toList, 5000⟩ none ⟨1000, 2⟩) (fun _ => true)
        [.result { ID := 1 }, .result { ID := 2 }, .result { ID := 3 },
          .tick]).batch.length : Int) <
      (New ⟨"http://google.com".toList, 5000⟩ none ⟨1000, 2⟩).cfg.BatchSize :=
  (C10_writer_buffer_invariant ⟨"http://google.com".toList, 5000⟩ none ⟨1000, 2⟩
    (fun _ => true)).2.2 _

/-! ## Scrape loop -/

theorem scrapeAll_cons_live (t : ScrapeTurn) (rest : List ScrapeTurn) (h : t.ctxErr = false) :
    fetchCalls (scrapeAll (t :: rest)) = t.name :: fetchCalls (scrapeAll rest) ∧
      saveCalls (scrapeAll (t :: rest)) =
        (savedList t).toList ++ saveCalls (scrapeAll rest) := by
  cases hf : t.fetched with
  | error err => simp [scrapeAll, h, hf, fetchCalls, saveCalls, savedList]
  | ok proxies =>
    by_cases hlen : proxies.length > 0
    · cases hs : (SaveBatch proxies t.saveExec).err with
      | some err => simp [scrapeAll, h, hf, hlen, hs, fetchCalls, saveCalls, savedList]
      | none => simp [scrapeAll, h, hf, hlen, hs, fetchCalls, saveCalls, savedList]
    · simp [scrapeAll, h, hf, hlen, fetchCalls, saveCalls, savedList]

theorem scrapeAll_until_fired (before after : List ScrapeTurn)
    (h : ∀ b ∈ before, b.ctxErr = false)
    (hafter : after = [] ∨ ∃ t rest, after = t :: rest ∧ t.ctxErr = true) :
    fetchCalls (scrapeAll (before ++ after)) = before.map (fun t => t.name) ∧
      saveCalls (scrapeAll (before ++ after)) = before.filterMap savedList := by
  induction before with
  | nil =>
    rcases hafter with rfl | ⟨t, rest, rfl, ht⟩
    · simp [scrapeAll, fetchCalls, saveCalls]
    · simp [scrapeAll, ht, fetchCalls, saveCalls]
  | cons b bs ih =>
    have hb : b.ctxErr = false := h b (by simp)
    obtain ⟨ih1, ih2⟩ := ih (fun x hx => h x (by simp [hx]))
    obtain ⟨h1, h2⟩ := scrapeAll_cons_live b (bs ++ after) hb
    constructor
    · simp [h1, ih1]
    · rw [List.cons_append, h2, ih2]
      cases hsl : savedList b <;> simp [List.filterMap_cons, hsl]

/-- C11: with the cancel token not fired, scrapeAll calls fetch on every source
once, in configured order, whatever the earlier fetches and saves returned, and
calls save_batch exactly for the sources whose fetch succeeded with a non-empty
candidate list, with that list; from the first turn that finds the token fired,
no source is fetched and nothing is saved. -/
theorem C11_scrape_all (turns : List ScrapeTurn) :
    ((∀ t ∈ turns, t.ctxErr = false) →
        fetchCalls (scrapeAll turns) = turns.map (fun t => t.name) ∧
          saveCalls (scrapeAll turns) = turns.filterMap savedList) ∧
      (∀ before t after, turns = before ++ t :: after →
        (∀ b ∈ before, b.ctxErr = false) → t.ctxErr = true →
        fetchCalls (scrapeAll turns) = before.map (fun t => t.name) ∧
          saveCalls (scrapeAll turns) = before.filterMap savedList) := by
  constructor
  · intro h
    have := scrapeAll_until_fired turns [] h (Or.inl rfl)
    simpa using this
  · rintro before t after rfl hb ht
    exact scrapeAll_until_fired before (t :: after) hb (Or.inr ⟨t, after, rfl, ht⟩)

/-- C11 (witness): of three sources, the first failing and the second saving
with an error, all three are fetched and the two non-empty lists are saved. -/
theorem C11_scrape_all_witness :
    fetchCalls (scrapeAll
        [⟨"a".toList, false, .error FetchError.fetchFailed, fun _ => none⟩,
          ⟨"b".toList, false, .ok [{ IP := "1.1.1.1".toList, Port := 80 }], fun _ => some ⟨1⟩⟩,
          ⟨"c".toList, false, .ok [{ IP := "2.2.2.2".toList, Port := 81 }], fun _ => none⟩]) =
      ["a".toList, "b".toList, "c".toList] ∧
    saveCalls (scrapeAll
        [⟨"a".toList, false, .error FetchError.fetchFailed, fun _ => none⟩,
          ⟨"b".toList, false, .ok [{ IP := "1.1.1.1".toList, Port := 80 }], fun _ => some ⟨1⟩⟩,
          ⟨"c".toList, false, .ok [{ IP := "2.2.2.2".toList, Port := 81 }], fun _ => none⟩]) =
      [[{ IP := "1.1.1.1".toList, Port := 80 }], [{ IP := "2.2.2.2".toList, Port := 81 }]] :=
  (C11_scrape_all _).1 (by
    intro t ht
    simp only [List.mem_cons, List.mem_singleton, List.not_mem_nil, or_false] at ht
    rcases ht with rfl | rfl | rfl <;> rfl)

/-! ## Worker loop -/

theorem workerStep_checked_at (geo : Option GeoService)
    (check : Except CheckError CheckResult) (now : Time) (p : Proxy) :
    (workerStep geo check now p).LastCheckedAt = some now := by
  cases check with
  | error err => simp [workerStep]
  | ok res =>
    cases hal : res.Alive with
    | false => simp [workerStep, hal]
    | true =>
      cases geo with
      | none => simp [workerStep, hal]
      | some svc =>
        by_cases hl : (svc.Lookup p.IP).2.2 = none ∧ (svc.Lookup p.IP).1 ≠ []
        · simp [workerStep, hal, hl]
        · simp only [workerStep, hal, hl]
          simp

theorem workerRecord_checked_at (e : Engine) (t : WorkerTurn) :
    (workerRecord e t).LastCheckedAt = some t.now :=
  workerStep_checked_at e.geo _ t.now t.job

theorem runWorker_live (e : Engine) (turns : List WorkerTurn)
    (h : ∀ t ∈ turns, t.ctxErr = false ∧ t.ctxDoneAtSend = false) :
    runWorker e turns =
      { dequeued := turns.map (fun t => t.job), checked := turns.map (fun t => t.job),
        delivered := turns.map (workerRecord e), drained := true } := by
  induction turns with
  | nil => rfl
  | cons t rest ih =>
    obtain ⟨h1, h2⟩ := h t (by simp)
    simp [runWorker, h1, h2, ih (fun x hx => h x (by simp [hx]))]

theorem runWorker_prefix (e : Engine) (turns : List WorkerTurn) :
    (runWorker e turns).delivered =
        (turns.take (runWorker e turns).delivered.length).map (workerRecord e) ∧
      (runWorker e turns).dequeued =
        (turns.take (runWorker e turns).dequeued.length).map (fun t => t.job) ∧
      (runWorker e turns).delivered.length ≤ (runWorker e turns).dequeued.length ∧
      (runWorker e turns).dequeued.length ≤ (runWorker e turns).delivered.length + 1 ∧
      ((runWorker e turns).drained = true →
        (runWorker e turns).delivered.length = (runWorker e turns).dequeued.length) ∧
      ((runWorker e turns).drained = false →
        ∃ t ∈ turns, t.ctxErr = true ∨ t.ctxDoneAtSend = true) := by
  induction turns with
  | nil => simp [runWorker]
  | cons t rest ih =>
    cases h1 : t.ctxErr with
    | true => simp [runWorker, h1]
    | false =>
      cases h2 : t.ctxDoneAtSend with
      | true => simp [runWorker, h1, h2]
      | false =>
        obtain ⟨i1, i2, i3, i4, i5, i6⟩ := ih
        simp only [runWorker, h1, h2, Bool.false_eq_true, if_false, List.length_cons,
          List.take_succ_cons, List.map_cons]
        refine ⟨?_, ?_, by omega, by omega, ?_, ?_⟩
        · rw [← i1]
        · rw [← i2]
        · intro hd
          rw [i5 hd]
        · intro hd
          obtain ⟨x, hx, hc⟩ := i6 hd
          exact ⟨x, List.mem_cons_of_mem _ hx, hc⟩

/-- C12 (counterexample): a job dequeued when the token has fired is neither
checked nor delivered and ends the worker with the queue not drained; a job
whose send loses the select to the token is checked but not delivered. -/
theorem C12_job_after_cancel_is_dropped :
    runWorker (New ⟨"http://google.com".toList, 5000⟩ none ⟨50, 100⟩)
        [⟨{ ID := 7, IP := "1.1.1.1".toList, Port := 8080 }, true,
            ⟨fun _ => true, fun _ => true, .failed TransportError.contextCanceled, 0⟩, 1000,
            false⟩,
          ⟨{ ID := 8, IP := "2.2.2.2".toList, Port := 8080 }, true,
            ⟨fun _ => true, fun _ => true, .failed TransportError.contextCanceled, 0⟩, 1001,
            false⟩] =
      { dequeued := [{ ID := 7, IP := "1.1.1.1".toList, Port := 8080 }], checked := [],
        delivered := [], drained := false } ∧
    runWorker (New ⟨"http://google.com".toList, 5000⟩ none ⟨50, 100⟩)
        [⟨{ ID := 7, IP := "1.1.1.1".toList, Port := 8080 }, false,
            ⟨fun _ => true, fun _ => true, .failed TransportError.contextCanceled, 0⟩, 1000,
            true⟩] =
      { dequeued := [{ ID := 7, IP := "1.1.1.1".toList, Port := 8080 }],
        checked := [{ ID := 7, IP := "1.1.1.1".toList, Port := 8080 }],
        delivered := [], drained := false } := by
  exact ⟨rfl, rfl⟩

theorem runWorker_append_live (e : Engine) (before rest : List WorkerTurn)
    (h : ∀ b ∈ before, b.ctxErr = false ∧ b.ctxDoneAtSend = false) :
    runWorker e (before ++ rest) =
      { dequeued := before.map (fun t => t.job) ++ (runWorker e rest).dequeued,
        checked := before.map (fun t => t.job) ++ (runWorker e rest).checked,
        delivered := before.map (workerRecord e) ++ (runWorker e rest).delivered,
        drained := (runWorker e rest).drained } := by
  induction before with
  | nil => rfl
  | cons b bs ih =>
    obtain ⟨h1, h2⟩ := h b (by simp)
    simp [runWorker, h1, h2, ih (fun x hx => h x (by simp [hx]))]

/-- C12 (amended): a worker that never finds the token fired checks every job
it dequeues, delivers every record and exits on the closed, empty queue. A
worker that finds the token fired at a dequeue has checked and delivered
exactly the jobs before it, drops that job unchecked, dequeues no later job
and exits with the queue not drained. A worker whose send loses the select to
the token has delivered exactly the jobs before it, has checked that job
without delivering it, dequeues no later job and exits likewise. Each record
carries the time of its check, and the records delivered are at most one fewer
than the jobs dequeued. -/
theorem C12_worker_delivers_until_cancel (e : Engine) (turns : List WorkerTurn) :
    ((∀ t ∈ turns, t.ctxErr = false ∧ t.ctxDoneAtSend = false) →
        runWorker e turns =
          { dequeued := turns.map (fun t => t.job), checked := turns.map (fun t => t.job),
            delivered := turns.map (workerRecord e), drained := true }) ∧
      (∀ before t after, turns = before ++ t :: after →
        (∀ b ∈ before, b.ctxErr = false ∧ b.ctxDoneAtSend = false) → t.ctxErr = true →
        runWorker e turns =
          { dequeued := before.map (fun t => t.job) ++ [t.job],
            checked := before.map (fun t => t.job),
            delivered := before.map (workerRecord e), drained := false }) ∧
      (∀ before t after, turns = before ++ t :: after →
        (∀ b ∈ before, b.ctxErr = false ∧ b.ctxDoneAtSend = false) → t.ctxErr = false →
        t.ctxDoneAtSend = true →
        runWorker e turns =
          { dequeued := before.map (fun t => t.job) ++ [t.job],
            checked := before.map (fun t => t.job) ++ [t.job],
            delivered := before.map (workerRecord e), drained := false }) ∧
      (∀ t, workerRecord e t = workerStep e.geo (Check e.chk t.env t.job) t.now t.job ∧
        (workerRecord e t).LastCheckedAt = some t.now) ∧
      (runWorker e turns).delivered.length ≤ (runWorker e turns).dequeued.length ∧
      (runWorker e turns).dequeued.length ≤ (runWorker e turns).delivered.length + 1 := by
  obtain ⟨_, _, i3, i4, _, _⟩ := runWorker_prefix e turns
  refine ⟨runWorker_live e turns, ?_, ?_, fun t => ⟨rfl, workerRecord_checked_at e t⟩, i3, i4⟩
  · rintro before t after rfl hb ht
    rw [runWorker_append_live e before (t :: after) hb]
    simp [runWorker, ht]
  · rintro before t after rfl hb ht hs
    rw [runWorker_append_live e before (t :: after) hb]
    simp [runWorker, ht, hs]

/-- C12 (witness): of three queued jobs, the first handled before the token
fires and the second dequeued after, the worker delivers the first record,
drops the second job unchecked and leaves the third in the queue. -/
theorem C12_worker_delivers_until_cancel_witness :
    runWorker (New ⟨"http://google.com".toList, 5000⟩ none ⟨50, 100⟩)
        ([⟨{ ID := 6, IP := "3.3.3.3".toList, Port := 8080 }, false,
            ⟨fun _ => true, fun _ => true, .response 200, 12⟩, 1000, false⟩] ++
          ⟨{ ID := 7, IP := "1.1.1.1".toList, Port := 8080 }, true,
            ⟨fun _ => true, fun _ => true, .failed TransportError.contextCanceled, 0⟩, 1001,
            false⟩ ::
          [⟨{ ID := 8, IP := "2.2.2.2".toList, Port := 8080 }, true,
            ⟨fun _ => true, fun _ => true, .failed TransportError.contextCanceled, 0⟩, 1002,
            false⟩]) =
      { dequeued := [{ ID := 6, IP := "3.3.3.3".toList, Port := 8080 },
          { ID := 7, IP := "1.1.1.1".toList, Port := 8080 }],
        checked := [{ ID := 6, IP := "3.3.3.3".toList, Port := 8080 }],
        delivered :=
          [{ ID := 6, IP := "3.3.3.3".toList, Port := 8080, LatencyMS := 12,
             LastCheckedAt := some 1000 }],
        drained := false } :=
  (C12_worker_delivers_until_cancel (New ⟨"http://google.com".toList, 5000⟩ none ⟨50, 100⟩)
    _).2.1
    [⟨{ ID := 6, IP := "3.3.3.3".toList, Port := 8080 }, false,
      ⟨fun _ => true, fun _ => true, .response 200, 12⟩, 1000, false⟩]
    _ _ rfl
    (by
      intro b hb
      simp only [List.mem_singleton] at hb
      subst hb
      exact ⟨rfl, rfl⟩)
    rfl

/-! ## Engine configuration -/

theorem wrapInt_of_fits (x : Int) (h1 : -(2 : Int) ^ 63 ≤ x) (h2 : x < (2 : Int) ^ 63) :
    wrapInt x = x := by
  unfold wrapInt
  norm_num at h1 h2 ⊢
  omega

theorem New_cfg (chk : Checker) (geo : Option GeoService) (cfg : Config) :
    (New chk geo cfg).cfg.NumWorkers = (if cfg.NumWorkers ≤ 0 then 50 else cfg.NumWorkers) ∧
      (New chk geo cfg).cfg.BatchSize = (if cfg.BatchSize ≤ 0 then 100 else cfg.BatchSize) := by
  simp only [New]
  by_cases h1 : cfg.NumWorkers ≤ 0 <;> by_cases h2 : cfg.BatchSize ≤ 0 <;> simp [h1, h2]

/-- C13 (counterexample): for BatchSize = 2^62 the product BatchSize*2 wraps to
-2^63, so the capacity asked for the queues is negative, not at least 2. -/
theorem C13_capacity_wraps_for_huge_batch :
    (New ⟨"http://google.com".toList, 5000⟩ none ⟨1000, 4611686018427387904⟩).cfg.BatchSize =
        4611686018427387904 ∧
      queueCapacity (New ⟨"http://google.com".toList, 5000⟩ none ⟨1000, 4611686018427387904⟩) =
        -9223372036854775808 := by
  decide

/-- C13 (amended): the engine built by New has NumWorkers = 50 when the given
value is ≤ 0 and the given value otherwise, and BatchSize = 100 when the given
value is ≤ 0 and the given value otherwise, so both are positive; when the
resulting BatchSize is below 2^62 the capacity Run asks for its two queues is
2 × BatchSize, at least 2. -/
theorem C13_engine_defaults (chk : Checker) (geo : Option GeoService) (cfg : Config) :
    (New chk geo cfg).cfg.NumWorkers = (if cfg.NumWorkers ≤ 0 then 50 else cfg.NumWorkers) ∧
      (New chk geo cfg).cfg.BatchSize = (if cfg.BatchSize ≤ 0 then 100 else cfg.BatchSize) ∧
      0 < (New chk geo cfg).cfg.NumWorkers ∧
      0 < (New chk geo cfg).cfg.BatchSize ∧
      ((New chk geo cfg).cfg.BatchSize < (2 : Int) ^ 62 →
        queueCapacity (New chk geo cfg) = 2 * (New chk geo cfg).cfg.BatchSize ∧
          2 ≤ queueCapacity (New chk geo cfg)) := by
  obtain ⟨hw, hb⟩ := New_cfg chk geo cfg
  have hbpos := New_BatchSize_pos chk geo cfg
  refine ⟨hw, hb, ?_, hbpos, ?_⟩
  · rw [hw]
    split <;> omega
  · intro hlt
    have hfit : wrapInt ((New chk geo cfg).cfg.BatchSize * 2) =
        (New chk geo cfg).cfg.BatchSize * 2 := by
      apply wrapInt_of_fits
      · norm_num
        omega
      · norm_num at hlt ⊢
        omega
    unfold queueCapacity
    rw [hfit]
    constructor <;> omega

/-- C13 (witness): the production configuration 1000 / 500 is kept and asks for
queues of capacity 1000. -/
theorem C13_engine_defaults_witness :
    queueCapacity (New ⟨"http://google.com".toList, 5000⟩ none ⟨1000, 500⟩) = 1000 :=
  ((C13_engine_defaults ⟨"http://google.com".toList, 5000⟩ none ⟨1000, 500⟩).2.2.2.2
    (by decide)).1

/-! ## Writer, delivery -/

theorem flush_delivery (updateFails : Nat → Bool) (s : WriterState) (B : Int)
    (hcalls : ∀ b ∈ s.calls, b ≠ [] ∧ (b.length : Int) ≤ B)
    (hlen : (s.batch.length : Int) ≤ B) :
    (flush updateFails s).calls.flatten = s.calls.flatten ++ s.batch ∧
      (∀ b ∈ (flush updateFails s).calls, b ≠ [] ∧ (b.length : Int) ≤ B) ∧
      (flush updateFails s).returned = s.returned := by
  by_cases hb : s.batch.length > 0
  · have hne : s.batch ≠ [] := List.length_pos.mp hb
    simp only [flush, hb, if_true, List.flatten_append, List.flatten_cons, List.flatten_nil,
      List.append_nil, true_and, and_true]
    intro b hmem
    rcases List.mem_append.mp hmem with hmem | hmem
    · exact hcalls b hmem
    · simp only [List.mem_singleton] at hmem
      subst hmem
      exact ⟨hne, hlen⟩
  · have hnil : s.batch = [] := by
      cases hbt : s.batch with
      | nil => rfl
      | cons x xs => simp [hbt] at hb
    have hf : flush updateFails s = s := by simp [flush, hb]
    rw [hf, hnil]
    exact ⟨by simp, hcalls, rfl⟩

theorem writer_delivery (e : Engine) (updateFails : Nat → Bool) (events : List WriterEvent)
    (s : WriterState) (hpos : 0 < e.cfg.BatchSize)
    (hev : ∀ ev ∈ events, ev = .tick ∨ ∃ p, ev = .result p)
    (hret : s.returned = false)
    (hcalls : ∀ b ∈ s.calls, b ≠ [] ∧ (b.length : Int) ≤ e.cfg.BatchSize)
    (hlen : (s.batch.length : Int) < e.cfg.BatchSize) :
    (events.foldl (fun s ev => if s.returned then s else writerStep e updateFails s ev)
        s).returned = false ∧
      (events.foldl (fun s ev => if s.returned then s else writerStep e updateFails s ev)
          s).calls.flatten ++
        (events.foldl (fun s ev => if s.returned then s else writerStep e updateFails s ev)
          s).batch = s.calls.flatten ++ s.batch ++ receivedResults events ∧
      (∀ b ∈ (events.foldl (fun s ev => if s.returned then s else writerStep e updateFails s ev)
          s).calls, b ≠ [] ∧ (b.length : Int) ≤ e.cfg.BatchSize) ∧
      (((events.foldl (fun s ev => if s.returned then s else writerStep e updateFails s ev)
          s).batch.length : Nat) : Int) < e.cfg.BatchSize := by
  induction events generalizing s with
  | nil => exact ⟨hret, by simp [receivedResults], hcalls, hlen⟩
  | cons ev rest ih =>
    have hrest : ∀ x ∈ rest, x = .tick ∨ ∃ p, x = .result p :=
      fun x hx => hev x (by simp [hx])
    simp only [List.foldl_cons, hret, Bool.false_eq_true, if_false]
    rcases hev ev (by simp) with rfl | ⟨p, rfl⟩
    · obtain ⟨f1, f2, f3⟩ := flush_delivery updateFails s e.cfg.BatchSize hcalls (by omega)
      have f4 : (flush updateFails s).batch = [] := flush_batch updateFails s
      obtain ⟨r1, r2, r3, r4⟩ := ih (writerStep e updateFails s .tick)
        hrest (by simp only [writerStep]; rw [f3]; exact hret)
        (by simpa only [writerStep] using f2)
        (by simp only [writerStep]; rw [f4]; simpa using hpos)
      refine ⟨r1, ?_, r3, r4⟩
      rw [r2]
      simp only [writerStep, f1, f4, receivedResults, List.append_nil]
    · by_cases hfull : ((s.batch ++ [p]).length : Int) ≥ e.cfg.BatchSize
      · have hstep : writerStep e updateFails s (.result p) =
            flush updateFails { s with batch := s.batch ++ [p] } := by
          simp only [writerStep]
          rw [if_pos hfull]
        have hle : (((s.batch ++ [p]).length : Nat) : Int) ≤ e.cfg.BatchSize := by
          simp only [List.length_append, List.length_singleton]
          push_cast
          omega
        obtain ⟨f1, f2, f3⟩ := flush_delivery updateFails { s with batch := s.batch ++ [p] }
          e.cfg.BatchSize hcalls hle
        have f4 := flush_batch updateFails { s with batch := s.batch ++ [p] }
        obtain ⟨r1, r2, r3, r4⟩ := ih (writerStep e updateFails s (.result p))
          hrest (by rw [hstep, f3]; exact hret) (by rw [hstep]; exact f2)
          (by rw [hstep, f4]; simpa using hpos)
        refine ⟨r1, ?_, r3, r4⟩
        rw [r2, hstep, f1, f4]
        simp [receivedResults]
      · have hstep : writerStep e updateFails s (.result p) =
            { s with batch := s.batch ++ [p] } := by
          simp only [writerStep]
          rw [if_neg hfull]
        obtain ⟨r1, r2, r3, r4⟩ := ih (writerStep e updateFails s (.result p))
          hrest (by rw [hstep]; exact hret) (by rw [hstep]; exact hcalls)
          (by rw [hstep]; exact Int.lt_of_not_ge hfull)
        refine ⟨r1, ?_, r3, r4⟩
        rw [r2, hstep]
        simp [receivedResults]

/-- C14: in the writer of an engine built by New, for every sequence of results
and ticks followed by the closing of the result queue, the batches passed to
UpdateBatch, concatenated in call order, are the results received in arrival
order; no batch is empty and none has more than batch_size records; the writer
ends with an empty buffer. -/
theorem C14_writer_delivers_once (chk : Checker) (geo : Option GeoService) (cfg : Config)
    (updateFails : Nat → Bool) (events : List WriterEvent)
    (hev : ∀ ev ∈ events, ev = .tick ∨ ∃ p, ev = .result p) :
    (runWriter (New chk geo cfg) updateFails (events ++ [.closed])).calls.flatten =
        receivedResults events ∧
      (∀ b ∈ (runWriter (New chk geo cfg) updateFails (events ++ [.closed])).calls,
        b ≠ [] ∧ (b.length : Int) ≤ (New chk geo cfg).cfg.BatchSize) ∧
      (runWriter (New chk geo cfg) updateFails (events ++ [.closed])).batch = [] ∧
      (runWriter (New chk geo cfg) updateFails (events ++ [.closed])).returned = true := by
  have hpos := New_BatchSize_pos chk geo cfg
  obtain ⟨r1, r2, r3, r4⟩ := writer_delivery (New chk geo cfg) updateFails events {} hpos hev
    rfl (by simp) (by simpa using hpos)
  generalize hS : events.foldl
    (fun s ev => if s.returned then s else writerStep (New chk geo cfg) updateFails s ev) {} = S
    at r1 r2 r3 r4
  obtain ⟨f1, f2, _⟩ := flush_delivery updateFails S (New chk geo cfg).cfg.BatchSize r3
    (Int.le_of_lt r4)
  have hrun : runWriter (New chk geo cfg) updateFails (events ++ [.closed]) =
      { flush updateFails S with returned := true } := by
    unfold runWriter
    rw [List.foldl_append, hS]
    simp only [List.foldl_cons, List.foldl_nil, r1, Bool.false_eq_true, if_false]
    rfl
  rw [hrun]
  refine ⟨?_, f2, flush_batch _ _, rfl⟩
  show (flush updateFails S).calls.flatten = receivedResults events
  rw [f1, r2]
  simp

/-- C14 (witness): with batch_size 2, three results and a tick before the close
are passed on as the batches [1, 2] and [3]. -/
theorem C14_writer_delivers_once_witness :
    (runWriter (New ⟨"http://google.com".toList, 5000⟩ none ⟨1000, 2⟩) (fun _ => false)
        ([.result { ID := 1 }, .result { ID := 2 }, .tick, .result { ID := 3 }] ++
          [.closed])).calls.flatten =
      [{ ID := 1 }, { ID := 2 }, { ID := 3 }] :=
  (C14_writer_delivers_once ⟨"http://google.com".toList, 5000⟩ none ⟨1000, 2⟩ (fun _ => false)
    [.result { ID := 1 }, .result { ID := 2 }, .tick, .result { ID := 3 }] (by
      intro ev hev
      simp only [List.mem_cons, List.mem_singleton, List.not_mem_nil, or_false] at hev
      rcases hev with rfl | rfl | rfl | rfl
      · exact Or.inr ⟨_, rfl⟩
      · exact Or.inr ⟨_, rfl⟩
      · exact Or.inl rfl
      · exact Or.inr ⟨_, rfl⟩)).1

/-! ## Round trip between Address and the parser -/

theorem digitChar_props (d : Nat) (h : d < 10) :
    ('0' ≤ Nat.digitChar d ∧ Nat.digitChar d ≤ '9') ∧
      (Nat.digitChar d).toNat - '0'.toNat = d ∧ isSpace (Nat.digitChar d) = false ∧
      Nat.digitChar d ≠ '\n' ∧ Nat.digitChar d ≠ '\r' := by
  interval_cases d <;> decide

theorem toDigitsCore_spec (fuel n : Nat) (ds : List Char) (h : n < fuel) :
    ∃ l, Nat.toDigitsCore 10 fuel n ds = l ++ ds ∧ l ≠ [] ∧
      (∀ c ∈ l, ∃ d, d < 10 ∧ c = Nat.digitChar d) ∧
      ∀ a, l.foldl (fun n c => n * 10 + (c.toNat - '0'.toNat)) a = a * 10 ^ l.length + n := by
  induction fuel generalizing n ds with
  | zero => omega
  | succ k ih =>
    have hmod : n % 10 < 10 := Nat.mod_lt _ (by decide)
    by_cases h0 : n / 10 = 0
    · refine ⟨[Nat.digitChar (n % 10)], by simp [Nat.toDigitsCore, h0], by simp, ?_, ?_⟩
      · intro c hc
        simp only [List.mem_singleton] at hc
        exact ⟨n % 10, hmod, hc⟩
      · intro a
        simp only [List.foldl_cons, List.foldl_nil, (digitChar_props _ hmod).2.1,
          List.length_singleton, pow_one]
        omega
    · obtain ⟨l, e, _, hd, hv⟩ := ih (n / 10) (Nat.digitChar (n % 10) :: ds) (by omega)
      refine ⟨l ++ [Nat.digitChar (n % 10)], by simp [Nat.toDigitsCore, h0, e], by simp, ?_, ?_⟩
      · intro c hc
        rcases List.mem_append.mp hc with hc | hc
        · exact hd c hc
        · simp only [List.mem_singleton] at hc
          exact ⟨n % 10, hmod, hc⟩
      · intro a
        simp only [List.foldl_append, List.foldl_cons, List.foldl_nil, hv,
          (digitChar_props _ hmod).2.1, List.length_append, List.length_singleton, pow_succ]
        have : a * (10 ^ l.length * 10) = a * 10 ^ l.length * 10 := by ring
        rw [this]
        generalize a * 10 ^ l.length = X
        omega

theorem toDigits_spec (n : Nat) :
    ∃ l, Nat.toDigits 10 n = l ∧ l ≠ [] ∧ (∀ c ∈ l, ∃ d, d < 10 ∧ c = Nat.digitChar d) ∧
      decimalValue l = n := by
  obtain ⟨l, e, hne, hd, hv⟩ := toDigitsCore_spec (n + 1) n [] (Nat.lt_succ_self n)
  refine ⟨l, by simpa [Nat.toDigits] using e, hne, hd, ?_⟩
  simpa [decimalValue] using hv 0
theorem Sprintd_spec (v : Int) :
    IsDecimal (Sprintd v) v ∧
      (∀ c ∈ Sprintd v, c = '-' ∨ ∃ d, d < 10 ∧ c = Nat.digitChar d) ∧
      ∃ init d, Sprintd v = init ++ [Nat.digitChar d] ∧ d < 10 := by
  cases v with
  | ofNat m =>
    obtain ⟨l, e, hne, hd, hv⟩ := toDigits_spec m
    simp only [Sprintd, e]
    refine ⟨⟨l, ⟨hne, fun c hc => ?_⟩, Or.inl ⟨Or.inl rfl, by simp [hv]⟩⟩,
      fun c hc => Or.inr (hd c hc), ?_⟩
    · obtain ⟨d, hd10, rfl⟩ := hd c hc
      exact (digitChar_props d hd10).1
    · obtain ⟨d, hd10, hlast⟩ := hd (l.getLast hne) (List.getLast_mem hne)
      exact ⟨l.dropLast, d, by rw [← hlast, List.dropLast_append_getLast], hd10⟩
  | negSucc m =>
    obtain ⟨l, e, hne, hd, hv⟩ := toDigits_spec (m + 1)
    simp only [Sprintd, e]
    refine ⟨⟨l, ⟨hne, fun c hc => ?_⟩, Or.inr ⟨rfl, by rw [hv]; rfl⟩⟩, fun c hc => ?_, ?_⟩
    · obtain ⟨d, hd10, rfl⟩ := hd c hc
      exact (digitChar_props d hd10).1
    · rcases List.mem_cons.mp hc with rfl | hc
      · exact Or.inl rfl
      · exact Or.inr (hd c hc)
    · obtain ⟨d, hd10, hlast⟩ := hd (l.getLast hne) (List.getLast_mem hne)
      exact ⟨'-' :: l.dropLast, d, by
        rw [← hlast, List.cons_append, List.dropLast_append_getLast], hd10⟩

theorem Atoi_Sprintd (v : Int) (h1 : -(2 : Int) ^ 63 ≤ v) (h2 : v < (2 : Int) ^ 63) :
    Atoi (Sprintd v) = some v :=
  (Atoi_eq_some _ _).mpr ⟨(Sprintd_spec v).1, h1, h2⟩

theorem TrimSpace_eq_self (c d : Char) (t : GoString) (hc : isSpace c = false)
    (hd : isSpace d = false) : TrimSpace (c :: (t ++ [d])) = c :: (t ++ [d]) := by
  simp [TrimSpace, List.dropWhile_cons, hc, hd]

theorem dropCR_eq_self (x : GoString) (d : Char) (hd : d ≠ '\r') :
    dropCR (x ++ [d]) = x ++ [d] := by
  unfold dropCR
  split
  · rename_i r heq
    simp only [List.reverse_append, List.reverse_cons, List.reverse_nil, List.nil_append,
      List.singleton_append, List.cons.injEq] at heq
    exact absurd heq.1 hd
  · rfl

theorem byteLen_append (a b : GoString) : byteLen (a ++ b) = byteLen a + byteLen b := by
  simp [byteLen]

theorem Fetch_single_line (hint line : GoString) (hnl : '\n' ∉ line) (hne : line ≠ []) :
    Fetch hint (.response 200 line) = scanLoop hint [line] [] := by
  have h := rawLinesAux_no_newline [] line hnl (by simpa using hne)
  simp only [List.reverse_nil, List.nil_append] at h
  simp [Fetch, rawLines, h]

theorem Address_no_newline (p : Proxy) (hnl : '\n' ∉ p.IP) : '\n' ∉ p.Address := by
  intro hmem
  simp only [Proxy.Address, List.mem_append, List.mem_cons] at hmem
  rcases hmem with hmem | hmem | hmem
  · exact hnl hmem
  · revert hmem
    decide
  · rcases (Sprintd_spec p.Port).2.1 _ hmem with hc | ⟨d, hd10, hc⟩
    · revert hc
      decide
    · exact (digitChar_props d hd10).2.2.2.1 hc.symm
theorem TrimSpace_length_le (s : GoString) : (TrimSpace s).length ≤ s.length := by
  have h1 : ((s.dropWhile isSpace).reverse.dropWhile isSpace).length ≤
      (s.dropWhile isSpace).reverse.length := (List.dropWhile_sublist isSpace).length_le
  have h2 : (s.dropWhile isSpace).length ≤ s.length :=
    (List.dropWhile_sublist isSpace).length_le
  simp only [TrimSpace, List.length_reverse] at h1 ⊢
  omega

theorem head_not_space_of_trimmed (c : Char) (t : GoString)
    (h : TrimSpace (c :: t) = c :: t) : isSpace c = false := by
  cases hc : isSpace c with
  | false => rfl
  | true =>
    have h1 : TrimSpace (c :: t) = TrimSpace t := by
      simp [TrimSpace, List.dropWhile_cons, hc]
    have h2 := TrimSpace_length_le t
    rw [← h1, h] at h2
    simp at h2

theorem Fetch_long_ip (hint : GoString) (n : Nat) (hn : MaxScanTokenSize ≤ n) (port : Int) :
    List.replicate n 'a' ≠ [] ∧ (∀ c ∈ List.replicate n 'a', c = 'a') ∧
      Fetch hint (.response 200 (Proxy.Address { IP := List.replicate n 'a', Port := port })) =
        .error FetchError.scanError := by
  have hpos : 0 < n := Nat.lt_of_lt_of_le (by decide) hn
  have hall : ∀ c ∈ List.replicate n 'a', c = 'a' := fun c hc => List.eq_of_mem_replicate hc
  have hne : List.replicate n 'a' ≠ [] := by
    intro h
    have := congrArg List.length h
    simp at this
    omega
  refine ⟨hne, hall, ?_⟩
  have hnl : '\n' ∉ Proxy.Address { IP := List.replicate n 'a', Port := port } :=
    Address_no_newline _ (by
      intro h
      have := hall _ h
      revert this
      decide)
  rw [Fetch_single_line hint _ hnl (by simp [Proxy.Address])]
  have hlen : MaxScanTokenSize ≤
      byteLen (Proxy.Address { IP := List.replicate n 'a', Port := port }) := by
    simp only [Proxy.Address]
    rw [byteLen_append, byteLen_replicate_a]
    omega
  simp [scanLoop, hlen]

/-- C15 (counterexample): a proxy whose ip is 65536 letters `a` (non-empty, no
`:`, no line break, no white space, no `#`) has an Address that Fetch does not
parse: the line is too long for the scanner and Fetch returns a scan error. -/
theorem C15_long_ip_does_not_round_trip :
    List.replicate 65536 'a' ≠ [] ∧ (∀ c ∈ List.replicate 65536 'a', c = 'a') ∧
      Fetch "http".toList
          (.response 200 (Proxy.Address { IP := List.replicate 65536 'a', Port := 8080 })) =
        .error FetchError.scanError :=
  Fetch_long_ip "http".toList 65536 (by decide) 8080

/-- C15 (amended): for every proxy whose ip is non-empty, has no `:`, no line
break, no leading or trailing white space and does not start with `#`, whose
port is an int, and whose Address is shorter than 65536 bytes, Fetch on the
single line Address yields exactly one candidate, with that ip and port. -/
theorem C15_address_round_trip (hint : GoString) (p : Proxy)
    (hne : p.IP ≠ []) (hcolon : ':' ∉ p.IP) (hnl : '\n' ∉ p.IP)
    (htrim : TrimSpace p.IP = p.IP) (hhash : HasPrefixHash p.IP = false)
    (hport : -(2 : Int) ^ 63 ≤ p.Port ∧ p.Port < (2 : Int) ^ 63)
    (hfit : byteLen p.Address < MaxScanTokenSize) :
    Fetch hint (.response 200 p.Address) =
      .ok [{ IP := p.IP, Port := p.Port, Protocol := hint }] := by
  obtain ⟨init, d, hS, hd10⟩ := (Sprintd_spec p.Port).2.2
  obtain ⟨_, _, hdsp, _, hdcr⟩ := digitChar_props d hd10
  cases hip : p.IP with
  | nil => exact absurd hip hne
  | cons c t =>
    have hcs : isSpace c = false := head_not_space_of_trimmed c t (by rw [← hip]; exact htrim)
    have hform : p.Address = c :: ((t ++ ':' :: init) ++ [Nat.digitChar d]) := by
      simp [Proxy.Address, hip, hS]
    have hdrop : dropCR p.Address = p.Address := by
      rw [hform]
      exact dropCR_eq_self (c :: (t ++ ':' :: init)) _ hdcr
    have htr : TrimSpace p.Address = p.Address := by
      rw [hform]
      exact TrimSpace_eq_self c _ _ hcs hdsp
    have hline : parseLine hint (dropCR p.Address) =
        some { IP := p.IP, Port := p.Port, Protocol := hint } :=
      (parseLine_eq_some hint _ _).mpr
        ⟨p.IP, Sprintd p.Port, p.Port, by rw [hdrop, htr]; rfl, hcolon, hhash,
          Atoi_Sprintd p.Port hport.1 hport.2, rfl⟩
    rw [Fetch_single_line hint _ (Address_no_newline p hnl) (by rw [hform]; simp),
      scanLoop_ok hint [p.Address] [] (by simpa using hfit)]
    simp [hline, hip]

/-- C15 (witness): the Address of 1.1.1.1:8080 parses back to 1.1.1.1 and 8080. -/
theorem C15_address_round_trip_witness :
    Fetch "socks5".toList
        (.response 200 (Proxy.Address { ID := 3, IP := "1.1.1.1".toList, Port := 8080 })) =
      .ok [{ IP := "1.1.1.1".toList, Port := 8080, Protocol := "socks5".toList }] :=
  C15_address_round_trip "socks5".toList { ID := 3, IP := "1.1.1.1".toList, Port := 8080 }
    (by decide) (by decide) (by decide) (by decide) (by decide) (by decide) (by decide)

end ProxyPool
